import Mathlib

/-! concat-socket: a verification development

The program (`main.go`) listens on a unix socket and, for every accepted
connection, runs `feedFile`: it globs the configured pattern, opens each
matched file with `getContents` (which starts a background copy pump feeding
an `io.Pipe`), hands the pipe readers one by one over an unbuffered channel
to `serveContents`, which copies each of them to the connection.

The goroutines of one connection are embedded as a small-step machine:

* the *feeder* is the goroutine running `feedFile`,
* the *writer* is the goroutine running `serveContents`,
* every stream returned by `getContents` carries its own *pump* goroutine.

A schedule is a list of thread identifiers; `run` executes it, a blocked or
finished thread leaving the state unchanged.  Statements quantified over all
schedules are statements about all interleavings.  A stream is held by one
goroutine at a time (the feeder while it sends it, the writer while it copies
it, nobody afterwards), and the state keeps it where it is held.

The serving process (`Server`) holds the table of accepted sockets, the log
and the exit status, shared by all handlers; `main` starts a handler for each
accepted connection and hands it the descriptor of that connection.  The life of the process (`main`, the goroutine of
`catchSigint`, the mutex and the global `listener`) is a second machine
(`Proc`).

Library calls are embedded by their documented behaviour:

* `io.Copy(dst, src)` reads a buffer from `src`, writes it to `dst` when it is
  not empty, stops with `nil` on `io.EOF`, and stops with the error on the
  first read or write error;
* `io.Pipe`: a write blocks until the reader has taken all its bytes, a read
  blocks until there is a write or the write end is closed, and returns
  `io.EOF` after `w.Close()`;
* `log.Fatalf`/`log.Fatalln` print and call `os.Exit(1)`: no deferred call
  runs and every goroutine stops.
-/

namespace ConcatSocket

/-! ## Files, connections, streams -/

abbrev Byte := Fin 256

/-- Size of the buffer `io.Copy` allocates (32 KiB). -/
def copyBufSize : Nat := 32 * 1024

/-- Concatenation of a list of byte strings. -/
def concatBytes : List (List Byte) → List Byte
  | [] => []
  | c :: cs => c ++ concatBytes cs

/-- What the `Read` following the last successful one returns. -/
inductive ReadEnd
  | eof
  | fail
deriving DecidableEq, Repr

/-- An openable file, as the sequence of results its `Read` calls give:
the successive buffers and then `io.EOF` or a read error. -/
structure File where
  chunks : List (List Byte)
  ending : ReadEnd
deriving DecidableEq, Repr

/-- The bytes a file delivers before its `Read` ends. -/
def File.bytes (f : File) : List Byte := concatBytes f.chunks

/-- The lines the program hands to package `log`. -/
inductive LogLine
  | badPattern
  | errorOpening (fileName : String)
  | errorCopyingToSocket
  | errorCopyingFrom (fileName : String)
deriving DecidableEq, Repr

/-- The connection (`net.Conn`) as seen by the server: the bytes accepted so
far, how many more bytes the peer accepts (`none`: every write succeeds)
and whether `conn.Close()` has run. -/
structure Conn where
  written : List Byte
  budget : Option Nat
  closed : Bool
deriving DecidableEq, Repr

/-- Result of `conn.Write(b)`: the new connection and whether the write
returned a `nil` error. -/
def Conn.write (c : Conn) (b : List Byte) : Conn × Bool :=
  match c.budget with
  | none => ({ c with written := c.written ++ b }, true)
  | some k =>
    if b.length ≤ k then
      ({ c with written := c.written ++ b, budget := some (k - b.length) }, true)
    else
      ({ c with written := c.written ++ b.take k, budget := some 0 }, false)

/-- Program counter of the goroutine started by `getContents`. -/
inductive PumpPc
  /-- inside `io.Copy(w, file)`, about to call `file.Read` -/
  | reading
  /-- inside `w.Write`, blocked until the reader has taken `pending` -/
  | writing (pending : List Byte)
  /-- after `io.Copy` has returned (and its error, if any, was logged) -/
  | copied
  /-- the deferred `w.Close()` has run -/
  | pipeClosed
  /-- the deferred `file.Close()` has run: the goroutine is finished -/
  | done
deriving DecidableEq, Repr

/-- The value returned by a successful `getContents`: the read end of a pipe
together with the file and the pump goroutine behind it. -/
structure Stream where
  fileName : String
  chunks : List (List Byte)
  ending : ReadEnd
  pump : PumpPc
deriving DecidableEq, Repr

/-- The environment of one run of `feedFile`: the result of
`filepath.Glob(*filePattern)` (`none`: an error) and of `os.Open` on each
path (`none`: an error). -/
structure Env where
  glob : Option (List String)
  openFile : String → Option File

/-- Lines 106-121. `none` is the error return of `os.Open`. -/
def getContents (env : Env) (fileName : String) : Option Stream :=
  match env.openFile fileName with
  | none => none
  | some file =>
    some { fileName := fileName, chunks := file.chunks, ending := file.ending, pump := .reading }

/-- One step of the pump goroutine (lines 112-119), with the lines it logs.
`none`: the goroutine is blocked in `w.Write` or has finished. -/
def pumpStep (st : Stream) : Option (Stream × List LogLine) :=
  match st.pump with
  | .reading =>
    match st.chunks with
    | c :: cs =>
      if c = [] then some ({ st with chunks := cs }, [])
      else some ({ st with chunks := cs, pump := .writing c }, [])
    | [] =>
      match st.ending with
      | .eof => some ({ st with pump := .copied }, [])
      | .fail => some ({ st with pump := .copied }, [.errorCopyingFrom st.fileName])
  | .writing _ => none
  | .copied => some ({ st with pump := .pipeClosed }, [])
  | .pipeClosed => some ({ st with pump := .done }, [])
  | .done => none

/-- Outcome of a `Read` on the read end of the pipe. -/
inductive PipeRead
  | data (buf : List Byte) (st : Stream)
  | eof
  | blocked
deriving DecidableEq, Repr

/-- The call `content.Read(buf)` with a buffer of `copyBufSize` bytes. -/
def pipeRead (st : Stream) : PipeRead :=
  match st.pump with
  | .writing pending =>
    if pending.drop copyBufSize = [] then .data pending { st with pump := .reading }
    else .data (pending.take copyBufSize) { st with pump := .writing (pending.drop copyBufSize) }
  | .pipeClosed => .eof
  | .done => .eof
  | .reading => .blocked
  | .copied => .blocked

/-- Whether the write end of the pipe has been closed. -/
def Stream.pipeClosed (st : Stream) : Bool :=
  match st.pump with
  | .pipeClosed => true
  | .done => true
  | _ => false

/-- Whether the file handle has been closed. -/
def Stream.fileClosed (st : Stream) : Bool :=
  match st.pump with
  | .done => true
  | _ => false

/-- The bytes a stream has still to deliver to its reader. -/
def Stream.remaining (st : Stream) : List Byte :=
  match st.pump with
  | .reading => concatBytes st.chunks
  | .writing pending => pending ++ concatBytes st.chunks
  | _ => []

/-! ## The goroutines of one connection -/

/-- Program counter of `feedFile` (lines 71-93). -/
inductive FeederPc
  /-- line 72: nothing done yet -/
  | start
  /-- line 78: about to call `filepath.Glob` -/
  | glob
  /-- line 83: at the head of the loop, `rest` still to be visited -/
  | loop (rest : List String)
  /-- line 89: blocked in `contents <- content` -/
  | send (content : Stream) (rest : List String)
  /-- line 92: the channel is closed, inside `wg.Wait()` -/
  | wait
  /-- returned, the deferred `conn.Close()` has run -/
  | done
deriving DecidableEq, Repr

/-- Program counter of `serveContents` (lines 95-104). -/
inductive WriterPc
  /-- the goroutine has not been started -/
  | idle
  /-- line 97: receiving from the channel -/
  | recv
  /-- line 98, inside `io.Copy`: about to read from `content` -/
  | copyRead (content : Stream)
  /-- line 98, inside `io.Copy`: about to write `buf` to the connection -/
  | copyWrite (content : Stream) (buf : List Byte)
  /-- returned, the deferred `wg.Done()` has run -/
  | done
deriving DecidableEq, Repr

/-- State of the goroutines serving one connection.  `released` holds the
streams the writer is through with (their pumps may still be running);
`received` and `copies` record the streams the writer took from the channel and
the result of each `io.Copy` (`true`: a `nil` error). -/
structure State where
  feeder : FeederPc
  writer : WriterPc
  released : List Stream
  chanClosed : Bool
  conn : Conn
  exit : Option Nat
  log : List LogLine
  received : List String
  copies : List (String × Bool)
deriving DecidableEq, Repr

/-- The threads of one connection.  The pump of a stream is named after
the goroutine that holds the stream: `pumpNext` for the one the feeder
is sending, `pumpCur` for the one the writer is copying, `pump i` for the
`i`-th released one. -/
inductive Tid
  | feeder
  | writer
  | pumpNext
  | pumpCur
  | pump (i : Nat)
deriving DecidableEq, Repr

/-- The state at the call of `feedFile(conn)`. -/
def State.init (conn : Conn) : State :=
  { feeder := .start, writer := .idle, released := [], chanClosed := false, conn := conn,
    exit := none, log := [], received := [], copies := [] }

/-- One step of `feedFile` (lines 71-93). -/
def feedFileStep (env : Env) (s : State) : Option State :=
  match s.feeder with
  -- lines 72-76: the close is deferred, the channel made, the writer started
  | .start => some { s with feeder := .glob, writer := .recv }
  | .glob =>
    match env.glob with
    -- lines 79-81: `log.Fatalf`
    | none => some { s with exit := some 1, log := s.log ++ [.badPattern] }
    | some files => some { s with feeder := .loop files }
  -- line 91: `close(contents)`
  | .loop [] => some { s with feeder := .wait, chanClosed := true }
  | .loop (fileName :: rest) =>
    match getContents env fileName with
    -- lines 85-88: log and `continue`
    | none => some { s with feeder := .loop rest, log := s.log ++ [.errorOpening fileName] }
    | some content => some { s with feeder := .send content rest }
  -- line 89: the channel has no buffer, the send completes in the writer's receive
  | .send _ _ => none
  | .wait =>
    match s.writer with
    -- line 92 returns once `wg.Done()` has run, then the deferred `conn.Close()`
    | .done => some { s with feeder := .done, conn := { s.conn with closed := true } }
    | _ => none
  | .done => none

/-- One step of `serveContents` (lines 95-104). -/
def serveContentsStep (s : State) : Option State :=
  match s.writer with
  | .idle => none
  | .recv =>
    match s.feeder with
    -- line 97 meets line 89: the stream passes from the feeder to the writer
    | .send content rest =>
      some { s with feeder := .loop rest, writer := .copyRead content,
                    received := s.received ++ [content.fileName] }
    -- the range loop ends when the channel is closed; the deferred `wg.Done()`
    | _ => if s.chanClosed then some { s with writer := .done } else none
  | .copyRead content =>
    match pipeRead content with
    | .data buf content' => some { s with writer := .copyWrite content' buf }
    -- `io.Copy` returns a nil error on `io.EOF`
    | .eof =>
      some { s with writer := .recv, released := s.released ++ [content],
                    copies := s.copies ++ [(content.fileName, true)] }
    | .blocked => none
  | .copyWrite content buf =>
    if (s.conn.write buf).2 then
      some { s with conn := (s.conn.write buf).1, writer := .copyRead content }
    else
      -- lines 99-102: `io.Copy` returns the write error; log and `continue`
      some { s with conn := (s.conn.write buf).1, writer := .recv,
                    released := s.released ++ [content],
                    copies := s.copies ++ [(content.fileName, false)],
                    log := s.log ++ [.errorCopyingToSocket] }
  | .done => none

/-- One step of the pump of the stream the feeder is sending. -/
def pumpNextStep (s : State) : Option State :=
  match s.feeder with
  | .send content rest =>
    match pumpStep content with
    | some (content', l) => some { s with feeder := .send content' rest, log := s.log ++ l }
    | none => none
  | _ => none

/-- One step of the pump of the stream the writer is copying. -/
def pumpCurStep (s : State) : Option State :=
  match s.writer with
  | .copyRead content =>
    match pumpStep content with
    | some (content', l) => some { s with writer := .copyRead content', log := s.log ++ l }
    | none => none
  | .copyWrite content buf =>
    match pumpStep content with
    | some (content', l) => some { s with writer := .copyWrite content' buf, log := s.log ++ l }
    | none => none
  | _ => none

/-- One step of the pump of the `i`-th released stream. -/
def pumpReleasedStep (i : Nat) (s : State) : Option State :=
  match s.released[i]? with
  | some content =>
    match pumpStep content with
    | some (content', l) => some { s with released := s.released.set i content', log := s.log ++ l }
    | none => none
  | none => none

/-- One step of thread `t`; `none` when the thread is blocked or finished, or
the process has exited. -/
def step (env : Env) (t : Tid) (s : State) : Option State :=
  match s.exit with
  | some _ => none
  | none =>
    match t with
    | .feeder => feedFileStep env s
    | .writer => serveContentsStep s
    | .pumpNext => pumpNextStep s
    | .pumpCur => pumpCurStep s
    | .pump i => pumpReleasedStep i s

/-- Executes a schedule. -/
def run (env : Env) : List Tid → State → State
  | [], s => s
  | t :: ts, s =>
    match step env t s with
    | some s' => run env ts s'
    | none => run env ts s

/-- The steps of `step`, one constructor per program point. -/
inductive Step (env : Env) : State → State → Prop
  | start (s : State) : s.exit = none → s.feeder = .start →
      Step env s { s with feeder := .glob, writer := .recv }
  | globFail (s : State) : s.exit = none → s.feeder = .glob → env.glob = none →
      Step env s { s with exit := some 1, log := s.log ++ [.badPattern] }
  | globOk (s : State) (files : List String) : s.exit = none → s.feeder = .glob →
      env.glob = some files → Step env s { s with feeder := .loop files }
  | close (s : State) : s.exit = none → s.feeder = .loop [] →
      Step env s { s with feeder := .wait, chanClosed := true }
  | openFail (s : State) (p : String) (rest : List String) : s.exit = none →
      s.feeder = .loop (p :: rest) → getContents env p = none →
      Step env s { s with feeder := .loop rest, log := s.log ++ [.errorOpening p] }
  | openOk (s : State) (p : String) (rest : List String) (c : Stream) : s.exit = none →
      s.feeder = .loop (p :: rest) → getContents env p = some c →
      Step env s { s with feeder := .send c rest }
  | finish (s : State) : s.exit = none → s.feeder = .wait → s.writer = .done →
      Step env s { s with feeder := .done, conn := { s.conn with closed := true } }
  | handoff (s : State) (c : Stream) (rest : List String) : s.exit = none →
      s.writer = .recv → s.feeder = .send c rest →
      Step env s { s with feeder := .loop rest, writer := .copyRead c,
                          received := s.received ++ [c.fileName] }
  | writerDone (s : State) : s.exit = none → s.writer = .recv →
      (∀ c rest, s.feeder ≠ .send c rest) → s.chanClosed = true →
      Step env s { s with writer := .done }
  | read (s : State) (c c' : Stream) (buf : List Byte) : s.exit = none →
      s.writer = .copyRead c → pipeRead c = .data buf c' →
      Step env s { s with writer := .copyWrite c' buf }
  | readEof (s : State) (c : Stream) : s.exit = none →
      s.writer = .copyRead c → pipeRead c = .eof →
      Step env s { s with writer := .recv, released := s.released ++ [c],
                          copies := s.copies ++ [(c.fileName, true)] }
  | writeOk (s : State) (c : Stream) (buf : List Byte) : s.exit = none →
      s.writer = .copyWrite c buf → (s.conn.write buf).2 = true →
      Step env s { s with conn := (s.conn.write buf).1, writer := .copyRead c }
  | writeFail (s : State) (c : Stream) (buf : List Byte) : s.exit = none →
      s.writer = .copyWrite c buf → (s.conn.write buf).2 = false →
      Step env s { s with conn := (s.conn.write buf).1, writer := .recv,
                          released := s.released ++ [c],
                          copies := s.copies ++ [(c.fileName, false)],
                          log := s.log ++ [.errorCopyingToSocket] }
  | pumpNext (s : State) (c c' : Stream) (rest : List String) (l : List LogLine) :
      s.exit = none → s.feeder = .send c rest → pumpStep c = some (c', l) →
      Step env s { s with feeder := .send c' rest, log := s.log ++ l }
  | pumpCurRead (s : State) (c c' : Stream) (l : List LogLine) :
      s.exit = none → s.writer = .copyRead c → pumpStep c = some (c', l) →
      Step env s { s with writer := .copyRead c', log := s.log ++ l }
  | pumpCurWrite (s : State) (c c' : Stream) (buf : List Byte) (l : List LogLine) :
      s.exit = none → s.writer = .copyWrite c buf → pumpStep c = some (c', l) →
      Step env s { s with writer := .copyWrite c' buf, log := s.log ++ l }
  | pumpReleased (s : State) (i : Nat) (c c' : Stream) (l : List LogLine) :
      s.exit = none → s.released[i]? = some c → pumpStep c = some (c', l) →
      Step env s { s with released := s.released.set i c', log := s.log ++ l }


/-! ## Specification functions -/

/-- A connection on which nothing has been written, with the given budget. -/
def Conn.new (budget : Option Nat) : Conn := { written := [], budget := budget, closed := false }

/-- The bytes `os.Open` followed by reads delivers for a path (nothing when the
open fails). -/
def contentOf (env : Env) (p : String) : List Byte :=
  match env.openFile p with
  | some f => f.bytes
  | none => []

/-- Concatenation of what the paths deliver, in order. -/
def expected (env : Env) (paths : List String) : List Byte :=
  concatBytes (paths.map (contentOf env))

/-- The paths whose open fails, in order. -/
def failing (env : Env) (paths : List String) : List String :=
  paths.filter fun p => (env.openFile p).isNone

/-- The paths whose open succeeds, in order. -/
def opened (env : Env) (paths : List String) : List String :=
  paths.filter fun p => (env.openFile p).isSome

/-- The paths named in the "Error opening" lines of a log, in order. -/
def openErrors : List LogLine → List String
  | [] => []
  | .errorOpening p :: l => p :: openErrors l
  | _ :: l => openErrors l

/-- The number of "Error copying to socket" lines of a log. -/
def socketErrors : List LogLine → Nat
  | [] => 0
  | .errorCopyingToSocket :: l => socketErrors l + 1
  | _ :: l => socketErrors l

/-- The paths the feeder has not visited yet. -/
def FeederPc.todo (paths : List String) : FeederPc → List String
  | .start => paths
  | .glob => paths
  | .loop rest => rest
  | .send _ rest => rest
  | .wait => []
  | .done => []

/-- The name of the stream the feeder is sending, if any. -/
def FeederPc.heldName : FeederPc → List String
  | .send c _ => [c.fileName]
  | _ => []

/-- The bytes still to come from the stream the feeder is sending. -/
def FeederPc.heldData : FeederPc → List Byte
  | .send c _ => c.remaining
  | _ => []

/-- The name of the stream the writer is copying, if any. -/
def WriterPc.heldName : WriterPc → List String
  | .copyRead c => [c.fileName]
  | .copyWrite c _ => [c.fileName]
  | _ => []

/-- The bytes the writer has read and not yet written, followed by those still
to come from the stream it is copying. -/
def WriterPc.heldData : WriterPc → List Byte
  | .copyRead c => c.remaining
  | .copyWrite c buf => buf ++ c.remaining
  | _ => []

/-- No thread can take a step. -/
def Terminal (env : Env) (s : State) : Prop := ∀ t, step env t s = none

/-! ## Termination measure -/

def chunksMeasure : List (List Byte) → Nat
  | [] => 0
  | c :: cs => 2 * c.length + 3 + chunksMeasure cs

def Stream.measure (c : Stream) : Nat :=
  chunksMeasure c.chunks +
    match c.pump with
    | .reading => 3
    | .writing p => 2 * p.length + 5
    | .copied => 2
    | .pipeClosed => 1
    | .done => 0

def streamsMeasure : List Stream → Nat
  | [] => 0
  | c :: cs => c.measure + streamsMeasure cs

def pathMeasure (env : Env) (p : String) : Nat :=
  match env.openFile p with
  | none => 3
  | some f => 6 + chunksMeasure f.chunks

def pathsMeasure (env : Env) : List String → Nat
  | [] => 0
  | p :: ps => pathMeasure env p + pathsMeasure env ps

def FeederPc.measure (env : Env) : FeederPc → Nat
  | .start => 5 + (match env.glob with | some ps => pathsMeasure env ps | none => 0)
  | .glob => 3 + (match env.glob with | some ps => pathsMeasure env ps | none => 0)
  | .loop rest => 2 + pathsMeasure env rest
  | .send c rest => 4 + pathsMeasure env rest + c.measure
  | .wait => 1
  | .done => 0

def WriterPc.measure : WriterPc → Nat
  | .idle => 1
  | .recv => 1
  | .copyRead c => 2 + c.measure
  | .copyWrite c _ => 3 + c.measure
  | .done => 0

def State.measure (env : Env) (s : State) : Nat :=
  match s.exit with
  | some _ => 0
  | none => 1 + s.feeder.measure env + s.writer.measure + streamsMeasure s.released

/-- The invariant of the goroutines' control. -/
structure Ctl (s : State) : Prop where
  idle_iff : s.writer = .idle ↔ s.feeder = .start
  closed_iff : s.chanClosed = true ↔ (s.feeder = .wait ∨ s.feeder = .done)
  writer_done : s.writer = .done → s.chanClosed = true
  conn_closed : s.conn.closed = true ↔ s.feeder = .done
  feeder_done : s.feeder = .done → s.writer = .done

/-- The invariant of the records kept of the paths, for the path list `paths`. -/
structure Rec (env : Env) (paths : List String) (s : State) : Prop where
  glob_ok : env.glob = some paths
  no_exit : s.exit = none
  errors : openErrors s.log ++ failing env (s.feeder.todo paths) = failing env paths
  handed : s.received ++ s.feeder.heldName ++ opened env (s.feeder.todo paths)
    = opened env paths
  copied : s.copies.map Prod.fst ++ s.writer.heldName = s.received
  released : s.released.map Stream.fileName = s.copies.map Prod.fst

/-- The invariant of the data, for a connection whose writes all succeed. -/
structure Data (env : Env) (paths : List String) (s : State) : Prop where
  budget : s.conn.budget = none
  bytes : s.conn.written ++ s.writer.heldData ++ s.feeder.heldData
    ++ expected env (s.feeder.todo paths) = expected env paths
  copies_ok : ∀ x ∈ s.copies, x.2 = true
  no_socket_error : socketErrors s.log = 0
  released_closed : ∀ c ∈ s.released, c.pump = .pipeClosed ∨ c.pump = .done

/-! ## What a connection with a budget receives -/

/-- What a peer with the given budget takes of a byte string. -/
def takeBudget : Option Nat → List Byte → List Byte
  | none, l => l
  | some k, l => l.take k

/-- The result of each `io.Copy` of `serveContents`, for streams of the given
names and sizes on a connection with the given budget: a copy returns a nil
error when all the bytes of its stream fit in what is left of the budget, and
after a failed write nothing is left. -/
def copyResults : Option Nat → List (String × Nat) → List (String × Bool)
  | _, [] => []
  | none, (p, _) :: xs => (p, true) :: copyResults none xs
  | some k, (p, n) :: xs =>
    if n ≤ k then (p, true) :: copyResults (some (k - n)) xs
    else (p, false) :: copyResults (some 0) xs

/-- Names and sizes of the streams of the paths that open, in order. -/
def streamSizes (env : Env) : List String → List (String × Nat)
  | [] => []
  | p :: ps =>
    match env.openFile p with
    | some f => (p, f.bytes.length) :: streamSizes env ps
    | none => streamSizes env ps

/-- The number of copies that returned an error. -/
def failedCopies : List (String × Bool) → Nat
  | [] => 0
  | (_, false) :: l => failedCopies l + 1
  | (_, true) :: l => failedCopies l

/-- Name and size of what is left of the stream the feeder is sending. -/
def FeederPc.heldSize : FeederPc → List (String × Nat)
  | .send c _ => [(c.fileName, c.remaining.length)]
  | _ => []

/-- Name and size of what is left of the stream the writer is copying, the
buffer in hand included. -/
def WriterPc.heldSize : WriterPc → List (String × Nat)
  | .copyRead c => [(c.fileName, c.remaining.length)]
  | .copyWrite c buf => [(c.fileName, buf.length + c.remaining.length)]
  | _ => []

/-- The invariant of the connection, for a peer with budget `b`: what is
written and what the budget still lets through of the bytes to come make up
what the peer takes of the whole; likewise for the copy results.  Neither the
log nor the exit status occurs in it. -/
structure Sock (env : Env) (b : Option Nat) (paths : List String) (s : State) : Prop where
  bytes : s.conn.written ++ takeBudget s.conn.budget
      (s.writer.heldData ++ s.feeder.heldData ++ expected env (s.feeder.todo paths))
    = takeBudget b (expected env paths)
  results : s.copies ++ copyResults s.conn.budget
      (s.writer.heldSize ++ s.feeder.heldSize ++ streamSizes env (s.feeder.todo paths))
    = copyResults b (streamSizes env paths)

/-! ## Sample inputs -/

def fileAB : File := { chunks := [[65, 66]], ending := .eof }

def fileCD : File := { chunks := [[67, 68]], ending := .eof }

/-- A file whose read fails after the byte `A`. -/
def fileBroken : File := { chunks := [[65]], ending := .fail }

/-- A file delivered in two reads. -/
def fileTwoReads : File := { chunks := [[65], [66]], ending := .eof }

/-- The pattern matches `a.txt` ("AB") and `b.txt` ("CD"). -/
def envAB : Env :=
  { glob := some ["a.txt", "b.txt"]
    openFile := fun p =>
      if p = "a.txt" then some fileAB else if p = "b.txt" then some fileCD else none }

/-- As `envAB`, with `a.txt` removed between the glob and the open. -/
def envGone : Env :=
  { glob := some ["a.txt", "b.txt"]
    openFile := fun p => if p = "b.txt" then some fileCD else none }

/-- As `envAB`, with a read error in `a.txt` after one byte. -/
def envBroken : Env :=
  { glob := some ["a.txt", "b.txt"]
    openFile := fun p =>
      if p = "a.txt" then some fileBroken else if p = "b.txt" then some fileCD else none }

/-- The pattern matches nothing. -/
def envEmpty : Env := { glob := some [], openFile := fun _ => none }

/-- The glob fails. -/
def envBadPattern : Env := { glob := none, openFile := fun _ => none }

/-- The pattern matches one file, delivered in two reads. -/
def envTwoReads : Env :=
  { glob := some ["a.txt"]
    openFile := fun p => if p = "a.txt" then some fileTwoReads else none }

/-- A schedule that serves both files of `envAB` to the end. -/
def schedAB : List Tid :=
  [.feeder, .feeder, .feeder, .writer, .pumpCur, .writer, .writer, .feeder, .pumpCur, .pumpCur,
   .writer, .writer, .pumpCur, .writer, .writer, .pumpCur, .pumpCur, .pumpCur, .writer, .feeder,
   .writer, .feeder]

/-- A fair schedule of `n` rounds for runs with at most two released streams. -/
def roundRobin : Nat → List Tid
  | 0 => []
  | n + 1 => [.feeder, .writer, .pumpCur, .pumpNext, .pump 0, .pump 1] ++ roundRobin n

/-- The state `feedFile(conn)` reaches under a schedule, for a new connection
with the given budget. -/
def feedFile (env : Env) (budget : Option Nat) (sched : List Tid) : State :=
  run env sched (State.init (Conn.new budget))

/-- The environment with the same files, none of which has a read error. -/
def Env.withoutReadErrors (env : Env) : Env :=
  { glob := env.glob
    openFile := fun p =>
      match env.openFile p with
      | some f => some { chunks := f.chunks, ending := .eof }
      | none => none }

/-! ## The connections of one process -/

/-- The goroutines of one call `feedFile(conn)`: the program counters and
records of `State`.  The connection itself is in the process's table of
sockets, under the descriptor `fd` the call was given; the log and the exit
status are those of the process. -/
structure Handler where
  fd : Nat
  feeder : FeederPc
  writer : WriterPc
  released : List Stream
  chanClosed : Bool
  received : List String
  copies : List (String × Bool)
deriving DecidableEq, Repr

/-- The process while it serves: the accepted connections by descriptor, the
handlers started by `go feedFile(conn)` in the order of their start, the log
and the exit status.  The sockets, the log and the exit status are shared by
all the handlers. -/
structure Server where
  sockets : List Conn
  handlers : List Handler
  log : List LogLine
  exit : Option Nat
deriving DecidableEq, Repr

/-- What happens in the serving process: `Accept` returns a connection and
`main` starts `feedFile` on it (lines 62-67), or thread `t` of the `i`-th
handler takes a step. -/
inductive ServerEvent
  | accept
  | thread (i : Nat) (t : Tid)
deriving DecidableEq, Repr

/-- The handler at the call `feedFile(conn)`, `conn` being descriptor `fd`. -/
def Handler.start (fd : Nat) : Handler :=
  { fd := fd, feeder := .start, writer := .idle, released := [], chanClosed := false,
    received := [], copies := [] }

/-- The state a handler's threads work on: its own program counters, the
connection found under its descriptor, the log and exit status of the
process. -/
def Handler.state (h : Handler) (conn : Conn) (log : List LogLine) (exit : Option Nat) :
    State :=
  { feeder := h.feeder, writer := h.writer, released := h.released, chanClosed := h.chanClosed,
    conn := conn, exit := exit, log := log, received := h.received, copies := h.copies }

/-- The handler's own part of a state. -/
def Handler.ofState (fd : Nat) (s : State) : Handler :=
  { fd := fd, feeder := s.feeder, writer := s.writer, released := s.released,
    chanClosed := s.chanClosed, received := s.received, copies := s.copies }

/-- No connection accepted yet. -/
def Server.init : Server := { sockets := [], handlers := [], log := [], exit := none }

/-- One event of the serving process.  `envs i` is the environment the `i`-th
call of `feedFile` finds (the glob and the opens are done afresh by each
call), `peers n` the budget of the peer of the `n`-th accepted connection.
A thread's step reads and writes the socket under its handler's descriptor
and the log and exit status of the process; after `log.Fatalf` in any handler
nothing steps. -/
def serverStep (envs : Nat → Env) (peers : Nat → Option Nat) (e : ServerEvent) (g : Server) :
    Option Server :=
  match g.exit with
  | some _ => none
  | none =>
    match e with
    | .accept =>
      some { g with sockets := g.sockets ++ [Conn.new (peers g.sockets.length)],
                    handlers := g.handlers ++ [Handler.start g.sockets.length] }
    | .thread i t =>
      match g.handlers[i]? with
      | none => none
      | some h =>
        match g.sockets[h.fd]? with
        | none => none
        | some conn =>
          match step (envs i) t (h.state conn g.log none) with
          | none => none
          | some s =>
            some { sockets := g.sockets.set h.fd s.conn,
                   handlers := g.handlers.set i (Handler.ofState h.fd s),
                   log := s.log, exit := s.exit }

/-- Executes a list of events of the serving process. -/
def serverRun (envs : Nat → Env) (peers : Nat → Option Nat) : List ServerEvent → Server → Server
  | [], g => g
  | e :: es, g =>
    match serverStep envs peers e g with
    | some g' => serverRun envs peers es g'
    | none => serverRun envs peers es g

/-- The invariant of the serving process, `paths i` being the glob result of
the `i`-th handler. -/
structure ServerInv (envs : Nat → Env) (peers : Nat → Option Nat) (paths : Nat → List String)
    (g : Server) : Prop where
  no_exit : g.exit = none
  same_length : g.handlers.length = g.sockets.length
  each : ∀ i h, g.handlers[i]? = some h →
    h.fd = i ∧ ∃ conn, g.sockets[i]? = some conn ∧ Ctl (h.state conn g.log none) ∧
      Sock (envs i) (peers i) (paths i) (h.state conn g.log none)

/-- Two clients: the first finds `a.txt` and `b.txt`, the second a lone
`a.txt` delivered in two reads. -/
def twoEnvs (i : Nat) : Env := if i = 0 then envAB else envTwoReads

/-- The glob results of `twoEnvs`. -/
def twoPaths (i : Nat) : List String := if i = 0 then ["a.txt", "b.txt"] else ["a.txt"]

/-- The peer of the first connection takes one byte and is gone, the others
accept everything. -/
def firstPeerFails (n : Nat) : Option Nat := if n = 0 then some 1 else none

/-- The threads of two handlers, in `n` rounds, each thread of the first
followed by the same thread of the second. -/
def bothRounds : Nat → List ServerEvent
  | 0 => []
  | n + 1 =>
    [.thread 0 .feeder, .thread 1 .feeder, .thread 0 .writer, .thread 1 .writer,
     .thread 0 .pumpCur, .thread 1 .pumpCur, .thread 0 .pumpNext, .thread 1 .pumpNext,
     .thread 0 (.pump 0), .thread 1 (.pump 0), .thread 0 (.pump 1), .thread 1 (.pump 1)]
      ++ bothRounds n

/-- Two connections are accepted, then served in interleaved rounds. -/
def twoClients : List ServerEvent := [.accept, .accept] ++ bothRounds 16

/-! ## The process -/

/-- Lines 37-46: the lines printed and, when `os.Exit` is called, its status. -/
def validateOptions (socketName filePattern : String) : List String × Option Nat :=
  if socketName = "" then (["You must provide a name"], some 1)
  else if filePattern = "" then (["You must provide a pattern"], some 1)
  else ([], none)

/-- The flags and what the system answers: whether `net.Listen` succeeds and
whether `filepath.Glob` accepts the pattern.  `parseExit` is the status with
which `flag.Parse` ends the process when it rejects the command line (2) or
is asked for help, `none` when it returns. -/
structure Config where
  socketName : String
  filePattern : String
  listenOk : Bool
  globOk : Bool
  parseExit : Option Nat
deriving DecidableEq, Repr

/-- Program counter of `main` (lines 48-69). -/
inductive MainPc
  /-- line 49: about to call `flag.Parse` -/
  | parse
  /-- line 50 -/
  | validate
  /-- line 52: about to call `catchSigint` -/
  | watch
  /-- line 53: about to lock `listenerMut` -/
  | lock
  /-- line 54: about to call `net.Listen`, holding the mutex -/
  | listen
  /-- line 59: about to unlock -/
  | unlock
  /-- line 62: about to call `listener.Accept` -/
  | accept
deriving DecidableEq, Repr

/-- Program counter of the goroutine of `catchSigint` (lines 25-34). -/
inductive WatcherPc
  /-- before `catchSigint` has been called -/
  | absent
  /-- line 26: receiving from the signal channel -/
  | waiting
  /-- line 27: about to lock `listenerMut` -/
  | lock
  /-- line 28: about to test `listener != nil`, holding the mutex -/
  | check
  /-- line 31: about to call `log.Fatalf` -/
  | fatal
deriving DecidableEq, Repr

/-- The global `listener`. -/
inductive ListenerVar
  | nil
  | listening
  | closed
deriving DecidableEq, Repr

/-- Who holds `listenerMut`. -/
inductive Holder
  | main
  | watcher
deriving DecidableEq, Repr

/-- State of the process: `signal` tells whether a signal waits in the channel
of capacity one, `handlers` counts the `go feedFile(conn)` started. -/
structure Proc where
  main : MainPc
  watcher : WatcherPc
  mutex : Option Holder
  listener : ListenerVar
  signal : Bool
  handlers : Nat
  exit : Option Nat
  out : List String
deriving DecidableEq, Repr

/-- What can happen in the process: a step of `main` (its `Accept` returning a
connection while the listener is open), an error returned by `Accept`, a step
of the watcher goroutine, the arrival of an interrupt signal, the call of
`filepath.Glob` in a connection handler. -/
inductive Event
  | main
  | acceptError
  | watcher
  | interrupt
  | handlerGlob
deriving DecidableEq, Repr

/-- The process at the start of `main`. -/
def Proc.boot : Proc :=
  { main := .parse, watcher := .absent, mutex := none, listener := .nil, signal := false,
    handlers := 0, exit := none, out := [] }

/-- The process when `flag.Parse` has returned, at the call of
`validateOptions`. -/
def Proc.init : Proc :=
  { main := .validate, watcher := .absent, mutex := none, listener := .nil, signal := false,
    handlers := 0, exit := none, out := [] }

/-- One step of `main`. -/
def mainStep (cfg : Config) (p : Proc) : Option Proc :=
  match p.main with
  | .parse =>
    match cfg.parseExit with
    | some code => some { p with exit := some code }
    | none => some { p with main := .validate }
  | .validate =>
    match (validateOptions cfg.socketName cfg.filePattern).2 with
    | some code =>
      some { p with exit := some code,
                    out := p.out ++ (validateOptions cfg.socketName cfg.filePattern).1 }
    | none => some { p with main := .watch }
  | .watch => some { p with watcher := .waiting, main := .lock }
  | .lock =>
    match p.mutex with
    | none => some { p with mutex := some .main, main := .listen }
    | some _ => none
  | .listen =>
    if cfg.listenOk then some { p with listener := .listening, main := .unlock }
    else some { p with exit := some 1 }
  | .unlock => some { p with mutex := none, main := .accept }
  | .accept =>
    match p.listener with
    | .listening => some { p with handlers := p.handlers + 1 }
    | _ => some { p with exit := some 1 }

/-- One step of the watcher goroutine. -/
def catchSigintStep (p : Proc) : Option Proc :=
  match p.watcher with
  | .absent => none
  | .waiting => if p.signal then some { p with signal := false, watcher := .lock } else none
  | .lock =>
    match p.mutex with
    | none => some { p with mutex := some .watcher, watcher := .check }
    | some _ => none
  | .check =>
    match p.listener with
    | .nil => some { p with watcher := .fatal }
    | _ => some { p with listener := .closed, watcher := .fatal }
  | .fatal => some { p with exit := some 1 }

/-- The status recorded for a process killed by SIGINT (128 + 2, as a shell
reports it). -/
def killedByInterrupt : Nat := 130

/-- One event of the process; `none` when it cannot happen.  Until
`signal.Notify` (line 24) has registered the channel an interrupt has its
default action and kills the process; afterwards it is put in the channel. -/
def procStep (cfg : Config) (e : Event) (p : Proc) : Option Proc :=
  match p.exit with
  | some _ => none
  | none =>
    match e with
    | .main => mainStep cfg p
    | .acceptError =>
      match p.main with
      | .accept => some { p with exit := some 1 }
      | _ => none
    | .watcher => catchSigintStep p
    | .interrupt =>
      match p.watcher with
      | .absent => some { p with exit := some killedByInterrupt }
      | _ => some { p with signal := true }
    | .handlerGlob =>
      if 0 < p.handlers ∧ cfg.globOk = false then some { p with exit := some 1 } else none

/-- Executes a list of events. -/
def procRun (cfg : Config) : List Event → Proc → Proc
  | [], p => p
  | e :: es, p =>
    match procStep cfg e p with
    | some p' => procRun cfg es p'
    | none => procRun cfg es p

/-- The phases of the process lifecycle. -/
inductive Phase
  | uninitialized
  | listening
  | closing
  | terminated
deriving DecidableEq, Repr

/-- The phase a state of the process is in. -/
def phase (p : Proc) : Phase :=
  match p.exit with
  | some _ => .terminated
  | none =>
    match p.listener with
    | .nil => .uninitialized
    | .listening => .listening
    | .closed => .closing

/-- The phases a run goes through, the starting one included. -/
def phases (cfg : Config) : List Event → Proc → List Phase
  | [], p => [phase p]
  | e :: es, p =>
    match procStep cfg e p with
    | some p' => phase p :: phases cfg es p'
    | none => phases cfg es p

/-- Both flags given, the socket can be created, the pattern is well formed. -/
def cfgGood : Config :=
  { socketName := "/tmp/sock", filePattern := "/tmp/x/*.txt", listenOk := true, globOk := true,
    parseExit := none }

/-- No socket name given. -/
def cfgNoName : Config :=
  { socketName := "", filePattern := "/tmp/x/*.txt", listenOk := true, globOk := true,
    parseExit := none }

/-- An interrupt arrives after `catchSigint()` and is handled before `main`
locks the mutex. -/
def earlyInterrupt : List Event :=
  [.main, .main, .main, .interrupt, .watcher, .watcher, .watcher, .watcher]

/-- The invariant of the process. -/
structure ProcInv (p : Proc) : Prop where
  watcher_holds : p.mutex = some .watcher ↔ (p.watcher = .check ∨ p.watcher = .fatal)
  main_holds : p.mutex = some .main ↔ (p.main = .listen ∨ p.main = .unlock)
  created : p.listener = .nil ↔
    (p.main = .parse ∨ p.main = .validate ∨ p.main = .watch ∨ p.main = .lock ∨
      p.main = .listen)
  installed : p.watcher = .absent ↔ (p.main = .parse ∨ p.main = .validate ∨ p.main = .watch)
  closed_by : p.listener = .closed → p.watcher = .fatal
  fatal : p.watcher = .fatal → p.listener ≠ .listening
  handlers : 0 < p.handlers → p.main = .accept

/-- The listener is created, an interrupt arrives, and the watcher has locked
the mutex: its next step closes the listener. -/
def beforeClose : List Event :=
  [.main, .main, .main, .main, .main, .main, .interrupt, .watcher, .watcher]

/-! # Theorems -/

theorem run_append (env : Env) (a b : List Tid) (s : State) :
    run env (a ++ b) s = run env b (run env a s) := by
  induction a generalizing s with
  | nil => rfl
  | cons t ts ih =>
    simp only [List.cons_append, run]
    cases step env t s <;> simp [ih]

theorem Step.of_step {env : Env} {t : Tid} {s s' : State} (h : step env t s = some s') :
    Step env s s' := by
  unfold step at h
  split at h
  · simp at h
  · rename_i hex
    cases t with
    | feeder =>
      simp only [feedFileStep] at h
      split at h
      · rename_i hf; cases h; exact .start s hex hf
      · rename_i hf
        split at h
        · rename_i hg; cases h; exact .globFail s hex hf hg
        · rename_i files hg; cases h; exact .globOk s files hex hf hg
      · rename_i hf; cases h; exact .close s hex hf
      · rename_i p rest hf
        split at h
        · rename_i hg; cases h; exact .openFail s p rest hex hf hg
        · rename_i c hg; cases h; exact .openOk s p rest c hex hf hg
      · simp at h
      · rename_i hf
        split at h
        · rename_i hw; cases h; exact .finish s hex hf hw
        · simp at h
      · simp at h
    | writer =>
      simp only [serveContentsStep] at h
      split at h
      · simp at h
      · rename_i hw
        split at h
        · rename_i c rest hf; cases h; exact .handoff s c rest hex hw hf
        · rename_i hf
          split at h
          · rename_i hc; cases h; exact .writerDone s hex hw hf hc
          · simp at h
      · rename_i c hw
        split at h
        · rename_i buf c' hr; cases h; exact .read s c c' buf hex hw hr
        · rename_i hr; cases h; exact .readEof s c hex hw hr
        · simp at h
      · rename_i c buf hw
        split at h
        · rename_i hk; cases h; exact .writeOk s c buf hex hw hk
        · rename_i hk; cases h; exact .writeFail s c buf hex hw (by simpa using hk)
      · simp at h
    | pumpNext =>
      simp only [pumpNextStep] at h
      split at h
      · rename_i c rest hf
        split at h
        · rename_i c' l hp; cases h; exact .pumpNext s c c' rest l hex hf hp
        · simp at h
      · simp at h
    | pumpCur =>
      simp only [pumpCurStep] at h
      split at h
      · rename_i c hw
        split at h
        · rename_i c' l hp; cases h; exact .pumpCurRead s c c' l hex hw hp
        · simp at h
      · rename_i c buf hw
        split at h
        · rename_i c' l hp; cases h; exact .pumpCurWrite s c c' buf l hex hw hp
        · simp at h
      · simp at h
    | pump i =>
      simp only [pumpReleasedStep] at h
      split at h
      · rename_i c hr
        split at h
        · rename_i c' l hp; cases h; exact .pumpReleased s i c c' l hex hr hp
        · simp at h
      · simp at h

/-! ## Schedules and invariants -/

theorem run_invariant (env : Env) (P : State → Prop)
    (hstep : ∀ s s', P s → Step env s s' → P s') :
    ∀ (sched : List Tid) (s : State), P s → P (run env sched s) := by
  intro sched
  induction sched with
  | nil => intro s h; exact h
  | cons t ts ih =>
    intro s h
    simp only [run]
    cases hs : step env t s with
    | none => exact ih s h
    | some s' => exact ih s' (hstep s s' h (Step.of_step hs))

@[simp] theorem Conn.write_closed (c : Conn) (b : List Byte) :
    (c.write b).1.closed = c.closed := by
  unfold Conn.write
  split
  · rfl
  · split <;> rfl

theorem Conn.write_of_budget_none {c : Conn} (h : c.budget = none) (b : List Byte) :
    c.write b = ({ c with written := c.written ++ b }, true) := by
  unfold Conn.write
  rw [h]

theorem Ctl.ctl_init (b : Option Nat) : Ctl (State.init (Conn.new b)) := by
  constructor <;> simp [State.init, Conn.new]

theorem Ctl.ctl_step {env : Env} {s s' : State} (h : Ctl s) (hs : Step env s s') : Ctl s' := by
  obtain ⟨h1, h2, h3, h4, h5⟩ := h
  cases hs <;> constructor <;> simp_all

theorem Ctl.ctl_run (env : Env) (b : Option Nat) (sched : List Tid) :
    Ctl (run env sched (State.init (Conn.new b))) :=
  run_invariant env Ctl (fun _ _ h hs => h.ctl_step hs) sched _ (Ctl.ctl_init b)

/-! ## Pumps and pipes -/

theorem copyBufSize_pos : 0 < copyBufSize := by decide

theorem pumpStep_fileName {c c' : Stream} {l : List LogLine} (h : pumpStep c = some (c', l)) :
    c'.fileName = c.fileName := by
  unfold pumpStep at h
  split at h
  · split at h
    · split at h <;> (cases h; rfl)
    · split at h <;> (cases h; rfl)
  · simp at h
  · cases h; rfl
  · cases h; rfl
  · simp at h

theorem pumpStep_remaining {c c' : Stream} {l : List LogLine} (h : pumpStep c = some (c', l)) :
    c'.remaining = c.remaining := by
  unfold pumpStep at h
  split at h
  · rename_i hp
    split at h
    · rename_i x xs hc
      split at h
      · rename_i hx
        cases h
        simp [Stream.remaining, hp, hc, hx, concatBytes]
      · cases h
        simp [Stream.remaining, hp, hc, concatBytes]
    · rename_i hc
      split at h <;> (cases h; simp [Stream.remaining, hp, hc, concatBytes])
  · simp at h
  · rename_i hp; cases h; simp [Stream.remaining, hp]
  · rename_i hp; cases h; simp [Stream.remaining, hp]
  · simp at h

theorem pumpStep_openErrors {c c' : Stream} {l : List LogLine} (h : pumpStep c = some (c', l)) :
    openErrors l = [] ∧ socketErrors l = 0 := by
  unfold pumpStep at h
  split at h
  · split at h
    · split at h <;> (cases h; simp [openErrors, socketErrors])
    · split at h <;> (cases h; simp [openErrors, socketErrors])
  · simp at h
  · cases h; simp [openErrors, socketErrors]
  · cases h; simp [openErrors, socketErrors]
  · simp at h

theorem pumpStep_measure {c c' : Stream} {l : List LogLine} (h : pumpStep c = some (c', l)) :
    c'.measure < c.measure := by
  unfold pumpStep at h
  split at h
  · rename_i hp
    split at h
    · rename_i x xs hc
      split at h
      · cases h
        simp [Stream.measure, hp, hc, chunksMeasure]
      · cases h
        simp [Stream.measure, hp, hc, chunksMeasure]
        omega
    · rename_i hc
      split at h <;> (cases h; simp [Stream.measure, hp, hc, chunksMeasure])
  · simp at h
  · rename_i hp; cases h; simp [Stream.measure, hp]
  · rename_i hp; cases h; simp [Stream.measure, hp]
  · simp at h

theorem pumpStep_closed {c c' : Stream} {l : List LogLine} (h : pumpStep c = some (c', l))
    (hc : c.pump = .pipeClosed ∨ c.pump = .done) : c'.pump = .pipeClosed ∨ c'.pump = .done := by
  unfold pumpStep at h
  rcases hc with hc | hc <;> simp [hc] at h
  right; rw [← h.1]

theorem pumpStep_eq_none {c : Stream} (h : pumpStep c = none) :
    (∃ p, c.pump = .writing p) ∨ c.pump = .done := by
  unfold pumpStep at h
  split at h
  · split at h
    · split at h <;> simp at h
    · split at h <;> simp at h
  · rename_i p hp; exact .inl ⟨p, hp⟩
  · simp at h
  · simp at h
  · rename_i hp; exact .inr hp

theorem pipeRead_data {c c' : Stream} {buf : List Byte} (h : pipeRead c = .data buf c') :
    c'.fileName = c.fileName ∧ buf ++ c'.remaining = c.remaining ∧
      c'.measure + 2 ≤ c.measure := by
  unfold pipeRead at h
  split at h
  · rename_i p hp
    split at h
    · cases h
      simp [Stream.remaining, Stream.measure, hp]
      omega
    · rename_i hd
      cases h
      refine ⟨rfl, ?_, ?_⟩
      · simp [Stream.remaining, hp, ← List.append_assoc]
      · have : 0 < p.length := by
          rcases p with _ | ⟨a, p⟩
          · simp at hd
          · simp
        simp [Stream.measure, hp, List.length_drop]
        have := copyBufSize_pos
        omega
  all_goals simp at h

theorem pipeRead_eof {c : Stream} (h : pipeRead c = .eof) :
    c.remaining = [] ∧ (c.pump = .pipeClosed ∨ c.pump = .done) := by
  unfold pipeRead at h
  split at h
  · split at h <;> simp at h
  · rename_i hp; simp [Stream.remaining, hp]
  · rename_i hp; simp [Stream.remaining, hp]
  · simp at h
  · simp at h

theorem pipeRead_blocked {c : Stream} (h : pipeRead c = .blocked) :
    ∃ x, pumpStep c = some x := by
  unfold pipeRead at h
  split at h
  · split at h <;> simp at h
  · simp at h
  · simp at h
  · rename_i hp
    unfold pumpStep
    simp only [hp]
    split
    · split <;> exact ⟨_, rfl⟩
    · split <;> exact ⟨_, rfl⟩
  · rename_i hp
    unfold pumpStep
    simp only [hp]
    exact ⟨_, rfl⟩

theorem getContents_some {env : Env} {p : String} {c : Stream} (h : getContents env p = some c) :
    ∃ f, env.openFile p = some f ∧ c.fileName = p ∧ c.remaining = f.bytes ∧
      c.measure = 3 + chunksMeasure f.chunks := by
  unfold getContents at h
  split at h
  · simp at h
  · rename_i f hf
    cases h
    exact ⟨f, hf, rfl, by simp [Stream.remaining, File.bytes], by simp [Stream.measure]; omega⟩

theorem getContents_none {env : Env} {p : String} (h : getContents env p = none) :
    env.openFile p = none := by
  unfold getContents at h
  split at h
  · assumption
  · simp at h

theorem openErrors_append (a b : List LogLine) :
    openErrors (a ++ b) = openErrors a ++ openErrors b := by
  induction a with
  | nil => rfl
  | cons x xs ih => cases x <;> simp [openErrors, ih]

theorem socketErrors_append (a b : List LogLine) :
    socketErrors (a ++ b) = socketErrors a + socketErrors b := by
  induction a with
  | nil => simp [socketErrors]
  | cons x xs ih =>
    cases x
    all_goals simp [socketErrors, ih]
    omega

/-! ## The invariants are kept by every step -/

theorem failing_cons_none {env : Env} {p : String} (h : env.openFile p = none)
    (rest : List String) : failing env (p :: rest) = p :: failing env rest := by
  simp [failing, List.filter_cons, h]

theorem failing_cons_some {env : Env} {p : String} {f : File} (h : env.openFile p = some f)
    (rest : List String) : failing env (p :: rest) = failing env rest := by
  simp [failing, List.filter_cons, h]

theorem opened_cons_none {env : Env} {p : String} (h : env.openFile p = none)
    (rest : List String) : opened env (p :: rest) = opened env rest := by
  simp [opened, List.filter_cons, h]

theorem opened_cons_some {env : Env} {p : String} {f : File} (h : env.openFile p = some f)
    (rest : List String) : opened env (p :: rest) = p :: opened env rest := by
  simp [opened, List.filter_cons, h]

theorem expected_cons_none {env : Env} {p : String} (h : env.openFile p = none)
    (rest : List String) : expected env (p :: rest) = expected env rest := by
  simp [expected, concatBytes, contentOf, h]

theorem expected_cons_some {env : Env} {p : String} {f : File} (h : env.openFile p = some f)
    (rest : List String) : expected env (p :: rest) = f.bytes ++ expected env rest := by
  simp [expected, concatBytes, contentOf, h]

theorem map_set_of_eq {α β : Type} (f : α → β) {l : List α} {i : Nat} {a a' : α}
    (h : l[i]? = some a) (hf : f a' = f a) : (l.set i a').map f = l.map f := by
  induction l generalizing i with
  | nil => simp
  | cons x xs ih =>
    cases i with
    | zero =>
      simp only [List.getElem?_cons_zero, Option.some.injEq] at h
      simp [h, hf]
    | succ i =>
      simp only [List.getElem?_cons_succ] at h
      simp [ih h]

theorem mem_set_cases {α : Type} {l : List α} {i : Nat} {a x : α} (h : x ∈ l.set i a) :
    x = a ∨ x ∈ l := by
  induction l generalizing i with
  | nil => simp at h
  | cons y ys ih =>
    cases i with
    | zero =>
      simp only [List.set_cons_zero, List.mem_cons] at h
      rcases h with h | h
      · exact .inl h
      · exact .inr (List.mem_cons_of_mem _ h)
    | succ i =>
      simp only [List.set_cons_succ, List.mem_cons] at h
      rcases h with h | h
      · exact .inr (by simp [h])
      · rcases ih h with h | h
        · exact .inl h
        · exact .inr (List.mem_cons_of_mem _ h)

theorem streamsMeasure_set {l : List Stream} {i : Nat} {c c' : Stream}
    (h : l[i]? = some c) (hm : c'.measure < c.measure) :
    streamsMeasure (l.set i c') < streamsMeasure l := by
  induction l generalizing i with
  | nil => simp at h
  | cons x xs ih =>
    cases i with
    | zero =>
      simp only [List.getElem?_cons_zero, Option.some.injEq] at h
      subst h
      simp only [List.set_cons_zero, streamsMeasure]
      omega
    | succ i =>
      simp only [List.getElem?_cons_succ] at h
      have := ih h
      simp only [List.set_cons_succ, streamsMeasure]
      omega

theorem streamsMeasure_append (a b : List Stream) :
    streamsMeasure (a ++ b) = streamsMeasure a + streamsMeasure b := by
  induction a with
  | nil => simp [streamsMeasure]
  | cons x xs ih => simp [streamsMeasure, ih]; omega

theorem Rec.rec_init {env : Env} {paths : List String} (hg : env.glob = some paths)
    (b : Option Nat) : Rec env paths (State.init (Conn.new b)) := by
  constructor <;> simp [State.init, hg, openErrors, FeederPc.todo, FeederPc.heldName,
    WriterPc.heldName]

theorem Rec.rec_step {env : Env} {paths : List String} {s s' : State} (h : Rec env paths s)
    (hs : Step env s s') : Rec env paths s' := by
  obtain ⟨hg, hx, h1, h2, h3, h4⟩ := h
  cases hs with
  | start _ hf =>
    constructor <;> simp_all [FeederPc.todo, FeederPc.heldName, WriterPc.heldName]
  | globFail _ hf hn => simp [hg] at hn
  | globOk files _ hf hn =>
    have : files = paths := by rw [hg] at hn; exact (Option.some.inj hn).symm
    subst this
    constructor <;> simp_all [FeederPc.todo, FeederPc.heldName, WriterPc.heldName]
  | close _ hf =>
    constructor <;> simp_all [FeederPc.todo, FeederPc.heldName, WriterPc.heldName, failing, opened]
  | openFail p rest _ hf ho =>
    have ho := getContents_none ho
    constructor <;>
      simp_all [FeederPc.todo, FeederPc.heldName, WriterPc.heldName, failing_cons_none ho,
        opened_cons_none ho, openErrors_append, openErrors]
  | openOk p rest c _ hf ho =>
    obtain ⟨f, ho, hn, -, -⟩ := getContents_some ho
    constructor <;>
      simp_all [FeederPc.todo, FeederPc.heldName, WriterPc.heldName, failing_cons_some ho,
        opened_cons_some ho]
  | finish _ hf hw =>
    constructor <;> simp_all [FeederPc.todo, FeederPc.heldName, WriterPc.heldName]
  | handoff c rest _ hw hf =>
    constructor <;> simp_all [FeederPc.todo, FeederPc.heldName, WriterPc.heldName]
  | writerDone _ hw hf hc =>
    constructor <;> simp_all [FeederPc.todo, FeederPc.heldName, WriterPc.heldName]
  | read c c' buf _ hw hr =>
    obtain ⟨hn, -, -⟩ := pipeRead_data hr
    constructor <;> simp_all [FeederPc.todo, FeederPc.heldName, WriterPc.heldName]
  | readEof c _ hw hr =>
    constructor <;> simp_all [FeederPc.todo, FeederPc.heldName, WriterPc.heldName]
  | writeOk c buf _ hw hk =>
    constructor <;> simp_all [FeederPc.todo, FeederPc.heldName, WriterPc.heldName]
  | writeFail c buf _ hw hk =>
    constructor <;>
      simp_all [FeederPc.todo, FeederPc.heldName, WriterPc.heldName, openErrors_append, openErrors]
  | pumpNext c c' rest l _ hf hp =>
    have hn := pumpStep_fileName hp
    have hl := (pumpStep_openErrors hp).1
    constructor <;>
      simp_all [FeederPc.todo, FeederPc.heldName, WriterPc.heldName, openErrors_append]
  | pumpCurRead c c' l _ hw hp =>
    have hn := pumpStep_fileName hp
    have hl := (pumpStep_openErrors hp).1
    constructor <;>
      simp_all [FeederPc.todo, FeederPc.heldName, WriterPc.heldName, openErrors_append]
  | pumpCurWrite c c' buf l _ hw hp =>
    have hn := pumpStep_fileName hp
    have hl := (pumpStep_openErrors hp).1
    constructor <;>
      simp_all [FeederPc.todo, FeederPc.heldName, WriterPc.heldName, openErrors_append]
  | pumpReleased i c c' l _ hr hp =>
    have hn := pumpStep_fileName hp
    have hl := (pumpStep_openErrors hp).1
    have hset := map_set_of_eq Stream.fileName hr hn
    constructor <;>
      simp_all [FeederPc.todo, FeederPc.heldName, WriterPc.heldName, openErrors_append]

theorem Data.data_init {env : Env} {paths : List String} :
    Data env paths (State.init (Conn.new none)) := by
  constructor <;> simp [State.init, Conn.new, socketErrors, FeederPc.todo, FeederPc.heldData,
    WriterPc.heldData]

theorem Data.data_step {env : Env} {paths : List String} {s s' : State} (hg : env.glob = some paths)
    (hc : Ctl s) (h : Data env paths s) (hs : Step env s s') : Data env paths s' := by
  obtain ⟨h1, h2, h3, h4, h5⟩ := h
  cases hs with
  | start _ hf =>
    have hw := hc.idle_iff.mpr hf
    constructor <;> simp_all [FeederPc.todo, FeederPc.heldData, WriterPc.heldData]
  | globFail _ hf hn => simp [hg] at hn
  | globOk files _ hf hn =>
    have : files = paths := by rw [hg] at hn; exact (Option.some.inj hn).symm
    subst this
    constructor <;> simp_all [FeederPc.todo, FeederPc.heldData, WriterPc.heldData]
  | close _ hf =>
    constructor <;> simp_all [FeederPc.todo, FeederPc.heldData, WriterPc.heldData]
  | openFail p rest _ hf ho =>
    have ho := getContents_none ho
    constructor <;>
      simp_all [FeederPc.todo, FeederPc.heldData, WriterPc.heldData, expected_cons_none ho,
        socketErrors_append, socketErrors]
  | openOk p rest c _ hf ho =>
    obtain ⟨f, ho, -, hr, -⟩ := getContents_some ho
    constructor <;>
      simp_all [FeederPc.todo, FeederPc.heldData, WriterPc.heldData, expected_cons_some ho]
  | finish _ hf hw =>
    constructor <;> simp_all [FeederPc.todo, FeederPc.heldData, WriterPc.heldData]
  | handoff c rest _ hw hf =>
    constructor <;> simp_all [FeederPc.todo, FeederPc.heldData, WriterPc.heldData]
  | writerDone _ hw hf hc =>
    constructor <;> simp_all [FeederPc.todo, FeederPc.heldData, WriterPc.heldData]
  | read c c' buf _ hw hr =>
    obtain ⟨-, hd, -⟩ := pipeRead_data hr
    refine ⟨h1, ?_, h3, h4, h5⟩
    rw [hw] at h2
    simp only [WriterPc.heldData] at h2 ⊢
    rw [← hd] at h2
    simpa using h2
  | readEof c _ hw hr =>
    obtain ⟨hd, hcl⟩ := pipeRead_eof hr
    refine ⟨h1, ?_, ?_, h4, ?_⟩
    · simpa [hw, WriterPc.heldData, hd] using h2
    · intro x hx
      simp only [List.mem_append, List.mem_singleton] at hx
      rcases hx with hx | hx
      · exact h3 x hx
      · rw [hx]
    · intro x hx
      simp only [List.mem_append, List.mem_singleton] at hx
      rcases hx with hx | hx
      · exact h5 x hx
      · rw [hx]; exact hcl
  | writeOk c buf _ hw hk =>
    have hwr := Conn.write_of_budget_none h1 buf
    constructor <;> simp_all [FeederPc.todo, FeederPc.heldData, WriterPc.heldData]
  | writeFail c buf _ hw hk =>
    have hwr := Conn.write_of_budget_none h1 buf
    simp [hwr] at hk
  | pumpNext c c' rest l _ hf hp =>
    have hn := pumpStep_remaining hp
    have hl := (pumpStep_openErrors hp).2
    constructor <;>
      simp_all [FeederPc.todo, FeederPc.heldData, WriterPc.heldData, socketErrors_append]
  | pumpCurRead c c' l _ hw hp =>
    have hn := pumpStep_remaining hp
    have hl := (pumpStep_openErrors hp).2
    constructor <;>
      simp_all [FeederPc.todo, FeederPc.heldData, WriterPc.heldData, socketErrors_append]
  | pumpCurWrite c c' buf l _ hw hp =>
    have hn := pumpStep_remaining hp
    have hl := (pumpStep_openErrors hp).2
    constructor <;>
      simp_all [FeederPc.todo, FeederPc.heldData, WriterPc.heldData, socketErrors_append]
  | pumpReleased i c c' l _ hr hp =>
    have hl := (pumpStep_openErrors hp).2
    have hcl : ∀ x ∈ s.released.set i c', x.pump = .pipeClosed ∨ x.pump = .done := by
      intro x hx
      rcases mem_set_cases hx with hx | hx
      · subst hx
        exact pumpStep_closed hp (h5 c (List.getElem?_mem hr))
      · exact h5 x hx
    constructor <;>
      simp_all [FeederPc.todo, FeederPc.heldData, WriterPc.heldData, socketErrors_append]

/-! ## Every step makes progress -/

theorem State.measure_step {env : Env} {s s' : State} (hs : Step env s s') :
    s'.measure env < s.measure env := by
  cases hs with
  | start hx hf =>
    simp only [State.measure, hx, hf, FeederPc.measure, WriterPc.measure]
    omega
  | globFail hx hf hn => simp [State.measure, hx]
  | globOk files hx hf hn => simp [State.measure, hx, hf, hn, FeederPc.measure]
  | close hx hf => simp [State.measure, hx, hf, FeederPc.measure, pathsMeasure]
  | openFail p rest hx hf ho =>
    have ho := getContents_none ho
    simp [State.measure, hx, hf, FeederPc.measure, pathsMeasure, pathMeasure, ho]
  | openOk p rest c hx hf ho =>
    obtain ⟨f, ho, -, -, hm⟩ := getContents_some ho
    simp [State.measure, hx, hf, FeederPc.measure, pathsMeasure, pathMeasure, ho, hm]
    omega
  | finish hx hf hw => simp [State.measure, hx, hf, hw, FeederPc.measure]
  | handoff c rest hx hw hf =>
    simp [State.measure, hx, hf, hw, FeederPc.measure, WriterPc.measure]
    omega
  | writerDone hx hw hf hc => simp [State.measure, hx, hw, WriterPc.measure]
  | read c c' buf hx hw hr =>
    obtain ⟨-, -, hm⟩ := pipeRead_data hr
    simp [State.measure, hx, hw, WriterPc.measure]
    omega
  | readEof c hx hw hr =>
    simp [State.measure, hx, hw, WriterPc.measure, streamsMeasure_append, streamsMeasure]
    omega
  | writeOk c buf hx hw hk => simp [State.measure, hx, hw, WriterPc.measure]
  | writeFail c buf hx hw hk =>
    simp [State.measure, hx, hw, WriterPc.measure, streamsMeasure_append, streamsMeasure]
    omega
  | pumpNext c c' rest l hx hf hp =>
    have hm := pumpStep_measure hp
    simp [State.measure, hx, hf, FeederPc.measure]
    omega
  | pumpCurRead c c' l hx hw hp =>
    have hm := pumpStep_measure hp
    simp [State.measure, hx, hw, WriterPc.measure]
    omega
  | pumpCurWrite c c' buf l hx hw hp =>
    have hm := pumpStep_measure hp
    simp [State.measure, hx, hw, WriterPc.measure]
    omega
  | pumpReleased i c c' l hx hr hp =>
    have hm := streamsMeasure_set hr (pumpStep_measure hp)
    simp [State.measure, hx]
    omega

theorem exists_terminal (env : Env) (s : State) : ∃ ext, Terminal env (run env ext s) := by
  generalize hn : s.measure env = n
  induction n using Nat.strong_induction_on generalizing s with
  | _ n ih =>
    by_cases h : Terminal env s
    · exact ⟨[], h⟩
    · simp only [Terminal, not_forall] at h
      obtain ⟨t, ht⟩ := h
      cases hs : step env t s with
      | none => exact absurd hs ht
      | some s' =>
        have hlt := State.measure_step (Step.of_step hs)
        obtain ⟨ext, hext⟩ := ih (s'.measure env) (hn ▸ hlt) s' rfl
        exact ⟨t :: ext, by simpa [run, hs] using hext⟩

/-- In a state where no thread can step, `feedFile` has returned (or the
process has exited) and no pump of a released stream is runnable. -/
theorem Terminal.done {env : Env} {s : State} (hc : Ctl s) (ht : Terminal env s)
    (hx : s.exit = none) : s.feeder = .done := by
  have hF := ht .feeder
  have hW := ht .writer
  have hP := ht .pumpCur
  simp only [step, hx] at hF hW hP
  -- the writer is never stuck while it copies
  have hcopy : ∀ c, s.writer ≠ .copyRead c := by
    intro c hw
    simp only [serveContentsStep, hw] at hW
    simp only [pumpCurStep, hw] at hP
    cases hr : pipeRead c with
    | data buf c' => simp [hr] at hW
    | eof => simp [hr] at hW
    | blocked =>
      obtain ⟨x, hxs⟩ := pipeRead_blocked hr
      simp [hxs] at hP
  have hcopy' : ∀ c buf, s.writer ≠ .copyWrite c buf := by
    intro c buf hw
    simp only [serveContentsStep, hw] at hW
    split at hW <;> simp at hW
  cases hf : s.feeder with
  | start => simp [feedFileStep, hf] at hF
  | glob =>
    simp only [feedFileStep, hf] at hF
    split at hF <;> simp at hF
  | loop rest =>
    cases rest with
    | nil => simp [feedFileStep, hf] at hF
    | cons p rest =>
      simp only [feedFileStep, hf] at hF
      split at hF <;> simp at hF
  | send c rest =>
    cases hw : s.writer with
    | idle => have := hc.idle_iff.mp hw; simp [hf] at this
    | recv => simp [serveContentsStep, hw, hf] at hW
    | copyRead c' => exact absurd hw (hcopy c')
    | copyWrite c' buf => exact absurd hw (hcopy' c' buf)
    | done => have := hc.closed_iff.mp (hc.writer_done hw); simp [hf] at this
  | wait =>
    cases hw : s.writer with
    | idle => have := hc.idle_iff.mp hw; simp [hf] at this
    | recv =>
      have := hc.closed_iff.mpr (.inl hf)
      simp [serveContentsStep, hw, hf, this] at hW
    | copyRead c' => exact absurd hw (hcopy c')
    | copyWrite c' buf => exact absurd hw (hcopy' c' buf)
    | done => simp [feedFileStep, hf, hw] at hF
  | done => rfl

theorem Terminal.released {env : Env} {s : State} (ht : Terminal env s) (hx : s.exit = none)
    (hd : ∀ c ∈ s.released, c.pump = .pipeClosed ∨ c.pump = .done) :
    ∀ c ∈ s.released, c.pump = .done := by
  intro c hc
  obtain ⟨i, hi, hget⟩ := List.getElem_of_mem hc
  have h := ht (.pump i)
  have hget' : s.released[i]? = some c := by rw [List.getElem?_eq_getElem hi, hget]
  simp only [step, hx, pumpReleasedStep, hget'] at h
  cases hp : pumpStep c with
  | some x => simp [hp] at h
  | none =>
    rcases pumpStep_eq_none hp with ⟨p, hp'⟩ | hp'
    · rcases hd c hc with h' | h' <;> simp [hp'] at h'
    · exact hp'

/-! ## Runs of `feedFile` -/

theorem Rec.rec_run {env : Env} {paths : List String} (hg : env.glob = some paths)
    (b : Option Nat) (sched : List Tid) :
    Rec env paths (run env sched (State.init (Conn.new b))) :=
  run_invariant env (Rec env paths) (fun _ _ h hs => h.rec_step hs) sched _ (Rec.rec_init hg b)

theorem Data.data_run {env : Env} {paths : List String} (hg : env.glob = some paths)
    (sched : List Tid) : Data env paths (run env sched (State.init (Conn.new none))) :=
  (run_invariant env (fun s => Ctl s ∧ Data env paths s)
    (fun _ _ h hs => ⟨h.1.ctl_step hs, h.2.data_step hg h.1 hs⟩) sched _ ⟨Ctl.ctl_init none, Data.data_init⟩).2

/-- Every run can be continued until no thread is runnable, and `feedFile` has
then returned. -/
theorem run_completes {env : Env} {paths : List String} (hg : env.glob = some paths)
    (b : Option Nat) (sched : List Tid) :
    ∃ ext, Terminal env (run env (sched ++ ext) (State.init (Conn.new b))) ∧
      (run env (sched ++ ext) (State.init (Conn.new b))).feeder = .done := by
  obtain ⟨ext, hext⟩ := exists_terminal env (run env sched (State.init (Conn.new b)))
  rw [← run_append] at hext
  exact ⟨ext, hext, hext.done (Ctl.ctl_run _ b _) (Rec.rec_run hg b _).no_exit⟩

theorem Rec.rec_final {env : Env} {paths : List String} {s : State} (h : Rec env paths s)
    (hd : s.feeder = .done) (hw : s.writer = .done) :
    openErrors s.log = failing env paths ∧ s.received = opened env paths ∧
      s.copies.map Prod.fst = opened env paths ∧
      s.released.map Stream.fileName = opened env paths := by
  obtain ⟨-, -, h1, h2, h3, h4⟩ := h
  simp [hd, hw, FeederPc.todo, FeederPc.heldName, WriterPc.heldName, failing, opened] at h1 h2 h3
  simp only [opened, failing] at *
  refine ⟨h1, h2, ?_, ?_⟩
  · rw [h3, h2]
  · rw [h4, h3, h2]

theorem Data.data_final {env : Env} {paths : List String} {s : State} (h : Data env paths s)
    (hd : s.feeder = .done) (hw : s.writer = .done) :
    s.conn.written = expected env paths := by
  have := h.bytes
  simpa [hd, hw, FeederPc.todo, FeederPc.heldData, WriterPc.heldData, expected, concatBytes]
    using this

theorem Data.written_le {env : Env} {paths : List String} {s : State} (h : Data env paths s) :
    s.conn.written <+: expected env paths :=
  ⟨_, by simpa [List.append_assoc] using h.bytes⟩

theorem expected_eq_of_map {env : Env} {paths : List String} {files : List File}
    (h : paths.map env.openFile = files.map some) :
    expected env paths = concatBytes (files.map File.bytes) := by
  induction paths generalizing files with
  | nil =>
    cases files with
    | nil => rfl
    | cons f fs => simp at h
  | cons p ps ih =>
    cases files with
    | nil => simp at h
    | cons f fs =>
      simp only [List.map_cons, List.cons.injEq] at h
      rw [expected_cons_some h.1, ih h.2]
      rfl

theorem expected_eq_filterMap (env : Env) (paths : List String) :
    expected env paths = concatBytes ((paths.filterMap env.openFile).map File.bytes) := by
  induction paths with
  | nil => rfl
  | cons p ps ih =>
    cases ho : env.openFile p with
    | none => rw [expected_cons_none ho, ih, List.filterMap_cons_none ho]
    | some f =>
      rw [expected_cons_some ho, ih, List.filterMap_cons_some ho]
      rfl

theorem copies_all_true {l : List (String × Bool)} (h : ∀ x ∈ l, x.2 = true) :
    l = (l.map Prod.fst).map fun p => (p, true) := by
  induction l with
  | nil => rfl
  | cons x xs ih =>
    have hx := h x (List.mem_cons_self _ _)
    have := ih fun y hy => h y (List.mem_cons_of_mem _ hy)
    rcases x with ⟨a, b⟩
    simp only at hx
    subst hx
    simp only [List.map_cons, List.cons.injEq, true_and]
    exact this

/-! ## The claims about one connection -/

theorem feedFile_append (env : Env) (b : Option Nat) (sched ext : List Tid) :
    feedFile env b (sched ++ ext) = run env ext (feedFile env b sched) :=
  run_append env sched ext _

/-- C1: when the glob returns `paths`, every path opens and every file is read
to its end without error, and all writes to the connection succeed, then
under every schedule the bytes written are at each moment a beginning of the
concatenation of the files' contents in glob order, they are exactly that
concatenation once `feedFile` has returned, and `feedFile` can always run on
until it returns. -/
theorem feedFile_writes_concatenation (env : Env) (paths : List String) (files : List File)
    (hglob : env.glob = some paths) (hopen : paths.map env.openFile = files.map some)
    (_hread : ∀ f ∈ files, f.ending = .eof) :
    (∀ sched, (feedFile env none sched).conn.written <+: concatBytes (files.map File.bytes)) ∧
    (∀ sched, (feedFile env none sched).feeder = .done →
      (feedFile env none sched).conn.written = concatBytes (files.map File.bytes)) ∧
    (∀ sched, ∃ ext, (feedFile env none (sched ++ ext)).feeder = .done) := by
  refine ⟨fun sched => ?_, fun sched hd => ?_, fun sched => ?_⟩
  · rw [← expected_eq_of_map hopen]
    exact (Data.data_run hglob sched).written_le
  · rw [← expected_eq_of_map hopen]
    exact (Data.data_run hglob sched).data_final hd ((Ctl.ctl_run _ none sched).feeder_done hd)
  · obtain ⟨ext, -, hd⟩ := run_completes hglob none sched
    exact ⟨ext, hd⟩

theorem feedFile_writes_concatenation_witness :
    envAB.glob = some ["a.txt", "b.txt"] ∧
    (feedFile envAB none schedAB).feeder = .done ∧
    (feedFile envAB none schedAB).conn.written = [65, 66, 67, 68] :=
  ⟨rfl, by decide,
    (feedFile_writes_concatenation envAB ["a.txt", "b.txt"] [fileAB, fileCD] rfl (by decide)
      (by decide)).2.1 schedAB (by decide)⟩

/-- C2: when the glob returns `paths` and the opened files are read without
error on a connection whose writes succeed, then under every schedule the
"Error opening" lines name a beginning of the failing paths and the streams
received by the writer a beginning of the opened paths; once `feedFile` has
returned the lines name exactly the failing paths in order, the writer has
received exactly the streams of the other paths in their original order, and
the connection holds the concatenation of the opened files only; `feedFile`
can always run on until it returns. -/
theorem feedFile_skips_failed_opens (env : Env) (paths : List String)
    (hglob : env.glob = some paths)
    (_hread : ∀ p ∈ paths, ∀ f, env.openFile p = some f → f.ending = .eof) :
    (∀ sched, openErrors (feedFile env none sched).log <+: failing env paths ∧
      (feedFile env none sched).received <+: opened env paths) ∧
    (∀ sched, (feedFile env none sched).feeder = .done →
      openErrors (feedFile env none sched).log = failing env paths ∧
      (feedFile env none sched).received = opened env paths ∧
      (feedFile env none sched).conn.written
        = concatBytes ((paths.filterMap env.openFile).map File.bytes)) ∧
    (∀ sched, ∃ ext, (feedFile env none (sched ++ ext)).feeder = .done) := by
  refine ⟨fun sched => ?_, fun sched hd => ?_, fun sched => ?_⟩
  · have h := Rec.rec_run hglob none sched
    exact ⟨⟨_, h.errors⟩, ⟨_, by simpa [List.append_assoc] using h.handed⟩⟩
  · have hw := (Ctl.ctl_run _ none sched).feeder_done hd
    have h := (Rec.rec_run hglob none sched).rec_final hd hw
    refine ⟨h.1, h.2.1, ?_⟩
    rw [← expected_eq_filterMap]
    exact (Data.data_run hglob sched).data_final hd hw
  · obtain ⟨ext, -, hd⟩ := run_completes hglob none sched
    exact ⟨ext, hd⟩

theorem feedFile_skips_failed_opens_witness :
    envGone.glob = some ["a.txt", "b.txt"] ∧
    openErrors (feedFile envGone none (roundRobin 16)).log = ["a.txt"] ∧
    (feedFile envGone none (roundRobin 16)).received = ["b.txt"] ∧
    (feedFile envGone none (roundRobin 16)).conn.written = [67, 68] :=
  ⟨rfl,
    (feedFile_skips_failed_opens envGone ["a.txt", "b.txt"] rfl (by decide)).2.1
      (roundRobin 16) (by decide)⟩

/-! ## Connections with a budget -/

theorem takeBudget_nil (b : Option Nat) : takeBudget b [] = [] := by
  cases b <;> simp [takeBudget]

theorem expected_nil (env : Env) : expected env [] = [] := rfl

theorem copyResults_zero (b : Option Nat) (p : String) (xs : List (String × Nat)) :
    copyResults b ((p, 0) :: xs) = (p, true) :: copyResults b xs := by
  cases b <;> simp [copyResults]

theorem Conn.write_ok_bytes {c : Conn} {buf : List Byte} (h : (c.write buf).2 = true)
    (x : List Byte) :
    (c.write buf).1.written ++ takeBudget (c.write buf).1.budget x
      = c.written ++ takeBudget c.budget (buf ++ x) := by
  unfold Conn.write at h ⊢
  split at h
  · rename_i hb
    simp [hb, takeBudget]
  · rename_i k hb
    simp only [hb]
    split at h
    · rename_i hk
      simp only [hk, if_true, takeBudget, List.take_append_eq_append_take,
        List.take_of_length_le hk, List.append_assoc]
    · simp at h

theorem Conn.write_fail_bytes {c : Conn} {buf : List Byte} (h : (c.write buf).2 = false)
    (x y : List Byte) :
    (c.write buf).1.written ++ takeBudget (c.write buf).1.budget y
      = c.written ++ takeBudget c.budget (buf ++ x) := by
  unfold Conn.write at h ⊢
  split at h
  · simp at h
  · rename_i k hb
    simp only [hb]
    split at h
    · simp at h
    · rename_i hk
      have hz : k - buf.length = 0 := by omega
      simp [hk, takeBudget, List.take_append_eq_append_take, hz]

theorem Conn.write_ok_results {c : Conn} {buf : List Byte} (h : (c.write buf).2 = true)
    (p : String) (n : Nat) (xs : List (String × Nat)) :
    copyResults (c.write buf).1.budget ((p, n) :: xs)
      = copyResults c.budget ((p, buf.length + n) :: xs) := by
  unfold Conn.write at h ⊢
  split at h
  · rename_i hb
    simp [hb, copyResults]
  · rename_i k hb
    simp only [hb]
    split at h
    · rename_i hk
      simp only [hk, if_true, copyResults]
      by_cases hn : n ≤ k - buf.length
      · have hn' : buf.length + n ≤ k := by omega
        have he : k - buf.length - n = k - (buf.length + n) := by omega
        simp [hn, hn', he]
      · have hn' : ¬ buf.length + n ≤ k := by omega
        simp [hn, hn']
    · simp at h

theorem Conn.write_fail_results {c : Conn} {buf : List Byte} (h : (c.write buf).2 = false)
    (p : String) (n : Nat) (xs : List (String × Nat)) :
    (p, false) :: copyResults (c.write buf).1.budget xs
      = copyResults c.budget ((p, buf.length + n) :: xs) := by
  unfold Conn.write at h ⊢
  split at h
  · simp at h
  · rename_i k hb
    simp only [hb]
    split at h
    · simp at h
    · rename_i hk
      have hn' : ¬ buf.length + n ≤ k := by omega
      simp [hk, copyResults, hn']

theorem streamSizes_cons_none {env : Env} {p : String} (h : env.openFile p = none)
    (rest : List String) : streamSizes env (p :: rest) = streamSizes env rest := by
  simp [streamSizes, h]

theorem streamSizes_cons_some {env : Env} {p : String} {f : File} (h : env.openFile p = some f)
    (rest : List String) :
    streamSizes env (p :: rest) = (p, f.bytes.length) :: streamSizes env rest := by
  simp [streamSizes, h]

theorem failedCopies_append (a b : List (String × Bool)) :
    failedCopies (a ++ b) = failedCopies a + failedCopies b := by
  induction a with
  | nil => simp [failedCopies]
  | cons x xs ih =>
    rcases x with ⟨p, r⟩
    cases r
    all_goals simp [failedCopies, ih]
    omega

theorem Sock.sock_init (env : Env) (b : Option Nat) (paths : List String)
    (l : List LogLine) (x : Option Nat) :
    Sock env b paths { State.init (Conn.new b) with log := l, exit := x } := by
  constructor <;> simp [State.init, Conn.new, FeederPc.todo, FeederPc.heldData,
    WriterPc.heldData, FeederPc.heldSize, WriterPc.heldSize]

theorem Sock.sock_step {env : Env} {b : Option Nat} {paths : List String} {s s' : State}
    (hg : env.glob = some paths) (hc : Ctl s) (h : Sock env b paths s) (hs : Step env s s') :
    Sock env b paths s' := by
  obtain ⟨h1, h2⟩ := h
  cases hs with
  | start _ hf =>
    have hw := hc.idle_iff.mpr hf
    constructor <;> simp_all [FeederPc.todo, FeederPc.heldData, WriterPc.heldData,
      FeederPc.heldSize, WriterPc.heldSize]
  | globFail _ hf hn => simp [hg] at hn
  | globOk files _ hf hn =>
    have : files = paths := by rw [hg] at hn; exact (Option.some.inj hn).symm
    subst this
    constructor <;> simp_all [FeederPc.todo, FeederPc.heldData, WriterPc.heldData,
      FeederPc.heldSize, WriterPc.heldSize]
  | close _ hf =>
    constructor <;> simp_all [FeederPc.todo, FeederPc.heldData, WriterPc.heldData,
      FeederPc.heldSize, WriterPc.heldSize]
  | openFail p rest _ hf ho =>
    have ho := getContents_none ho
    constructor <;> simp_all [FeederPc.todo, FeederPc.heldData, WriterPc.heldData,
      FeederPc.heldSize, WriterPc.heldSize, expected_cons_none ho, streamSizes_cons_none ho]
  | openOk p rest c _ hf ho =>
    obtain ⟨f, ho, hn, hr, -⟩ := getContents_some ho
    constructor <;> simp_all [FeederPc.todo, FeederPc.heldData, WriterPc.heldData,
      FeederPc.heldSize, WriterPc.heldSize, expected_cons_some ho, streamSizes_cons_some ho]
  | finish _ hf hw =>
    constructor <;> simp_all [FeederPc.todo, FeederPc.heldData, WriterPc.heldData,
      FeederPc.heldSize, WriterPc.heldSize]
  | handoff c rest _ hw hf =>
    constructor <;> simp_all [FeederPc.todo, FeederPc.heldData, WriterPc.heldData,
      FeederPc.heldSize, WriterPc.heldSize]
  | writerDone _ hw hf hcl =>
    constructor <;> simp_all [FeederPc.todo, FeederPc.heldData, WriterPc.heldData,
      FeederPc.heldSize, WriterPc.heldSize]
  | read c c' buf _ hw hr =>
    obtain ⟨hn, hd, -⟩ := pipeRead_data hr
    have hl : buf.length + c'.remaining.length = c.remaining.length := by
      rw [← hd, List.length_append]
    refine ⟨?_, ?_⟩
    · rw [hw] at h1
      simp only [WriterPc.heldData] at h1 ⊢
      rw [← hd] at h1
      simpa using h1
    · rw [hw] at h2
      simp only [WriterPc.heldSize] at h2 ⊢
      rw [hl, hn]
      exact h2
  | readEof c _ hw hr =>
    obtain ⟨hd, -⟩ := pipeRead_eof hr
    refine ⟨?_, ?_⟩
    · simpa [hw, WriterPc.heldData, hd] using h1
    · rw [hw] at h2
      simp only [WriterPc.heldSize, hd, List.length_nil, List.cons_append, List.nil_append,
        copyResults_zero] at h2
      simpa [WriterPc.heldSize] using h2
  | writeOk c buf _ hw hk =>
    refine ⟨?_, ?_⟩
    · rw [hw] at h1
      simp only [WriterPc.heldData, List.append_assoc] at h1 ⊢
      rw [Conn.write_ok_bytes hk]
      exact h1
    · rw [hw] at h2
      simp only [WriterPc.heldSize, List.cons_append, List.nil_append] at h2 ⊢
      rw [Conn.write_ok_results hk]
      exact h2
  | writeFail c buf _ hw hk =>
    refine ⟨?_, ?_⟩
    · rw [hw] at h1
      simp only [WriterPc.heldData, List.append_assoc, List.nil_append] at h1 ⊢
      rw [Conn.write_fail_bytes hk (c.remaining ++ (s.feeder.heldData
        ++ expected env (s.feeder.todo paths)))]
      exact h1
    · rw [hw] at h2
      simp only [WriterPc.heldSize, List.cons_append, List.nil_append, List.append_assoc] at h2 ⊢
      rw [← Conn.write_fail_results hk c.fileName c.remaining.length] at h2
      simpa using h2
  | pumpNext c c' rest l _ hf hp =>
    have hn := pumpStep_remaining hp
    have hm := pumpStep_fileName hp
    constructor <;> simp_all [FeederPc.todo, FeederPc.heldData, WriterPc.heldData,
      FeederPc.heldSize, WriterPc.heldSize]
  | pumpCurRead c c' l _ hw hp =>
    have hn := pumpStep_remaining hp
    have hm := pumpStep_fileName hp
    constructor <;> simp_all [FeederPc.todo, FeederPc.heldData, WriterPc.heldData,
      FeederPc.heldSize, WriterPc.heldSize]
  | pumpCurWrite c c' buf l _ hw hp =>
    have hn := pumpStep_remaining hp
    have hm := pumpStep_fileName hp
    constructor <;> simp_all [FeederPc.todo, FeederPc.heldData, WriterPc.heldData,
      FeederPc.heldSize, WriterPc.heldSize]
  | pumpReleased i c c' l _ hr hp =>
    constructor <;> simp_all [FeederPc.todo, FeederPc.heldData, WriterPc.heldData,
      FeederPc.heldSize, WriterPc.heldSize]

theorem Sock.sock_run {env : Env} {paths : List String} (hg : env.glob = some paths)
    (b : Option Nat) (sched : List Tid) : Sock env b paths (feedFile env b sched) :=
  (run_invariant env (fun s => Ctl s ∧ Sock env b paths s)
    (fun _ _ h hs => ⟨h.1.ctl_step hs, h.2.sock_step hg h.1 hs⟩) sched _
    ⟨Ctl.ctl_init b, Sock.sock_init env b paths [] none⟩).2

theorem socketErrors_run (env : Env) (b : Option Nat) (sched : List Tid) :
    socketErrors (feedFile env b sched).log = failedCopies (feedFile env b sched).copies :=
  run_invariant env (fun s => socketErrors s.log = failedCopies s.copies)
    (by
      intro s s' h hs
      cases hs with
      | readEof c _ hw hr => simpa [failedCopies_append, failedCopies] using h
      | writeFail c buf _ hw hk =>
        simp only [socketErrors_append, failedCopies_append, socketErrors, failedCopies, h]
      | globFail _ hf hn => simpa [socketErrors_append, socketErrors] using h
      | openFail p rest _ hf ho => simpa [socketErrors_append, socketErrors] using h
      | pumpNext c c' rest l _ hf hp =>
        simpa [socketErrors_append, (pumpStep_openErrors hp).2] using h
      | pumpCurRead c c' l _ hw hp =>
        simpa [socketErrors_append, (pumpStep_openErrors hp).2] using h
      | pumpCurWrite c c' buf l _ hw hp =>
        simpa [socketErrors_append, (pumpStep_openErrors hp).2] using h
      | pumpReleased i c c' l _ hr hp =>
        simpa [socketErrors_append, (pumpStep_openErrors hp).2] using h
      | _ => exact h)
    sched _ (by simp [State.init, socketErrors, failedCopies])

/-- C3: when the glob returns `paths`, then for every budget of the connection
(so for every pattern of failing copies) and under every schedule: the
streams whose `io.Copy` has returned, followed by the one being copied, are
exactly the streams received from the channel, in arrival order; a failed
write sends the writer back to the receive; the log has one "Error copying
to socket" line for each copy that returned an error, and the connection
holds at every moment a beginning of what its peer takes of the
concatenation of the opened files; when `serveContents` has returned the
channel is closed, the connection holds exactly what the peer takes of that
concatenation, and a copy of every opened stream has been made, in order,
with the result its size and the budget left by the copies before it
determine (an earlier failure stops none of the later copies, each of which
is made against the connection and logs its own error); and
`serveContents` can always run on until it returns. -/
theorem serveContents_continues_after_copy_error (env : Env) (paths : List String)
    (b : Option Nat) (hglob : env.glob = some paths) :
    (∀ sched, (feedFile env b sched).copies.map Prod.fst ++ (feedFile env b sched).writer.heldName
      = (feedFile env b sched).received) ∧
    (∀ sched c buf, (feedFile env b sched).writer = .copyWrite c buf →
      ((feedFile env b sched).conn.write buf).2 = false →
      ∃ s', step env .writer (feedFile env b sched) = some s' ∧ s'.writer = .recv ∧
        s'.copies = (feedFile env b sched).copies ++ [(c.fileName, false)]) ∧
    (∀ sched, (feedFile env b sched).writer = .done →
      (feedFile env b sched).chanClosed = true ∧
      (feedFile env b sched).copies.map Prod.fst = opened env paths) ∧
    (∀ sched, ∃ ext, (feedFile env b (sched ++ ext)).writer = .done) ∧
    (∀ sched,
      (feedFile env b sched).conn.written <+: takeBudget b (expected env paths) ∧
      (feedFile env b sched).copies <+: copyResults b (streamSizes env paths) ∧
      socketErrors (feedFile env b sched).log = failedCopies (feedFile env b sched).copies) ∧
    (∀ sched, (feedFile env b sched).writer = .done →
      (feedFile env b sched).conn.written = takeBudget b (expected env paths) ∧
      (feedFile env b sched).copies = copyResults b (streamSizes env paths) ∧
      socketErrors (feedFile env b sched).log
        = failedCopies (copyResults b (streamSizes env paths))) := by
  refine ⟨fun sched => (Rec.rec_run hglob b sched).copied, fun sched c buf hw hk => ?_,
    fun sched hw => ?_, fun sched => ?_, fun sched => ?_, fun sched hw => ?_⟩
  · have hx := (Rec.rec_run hglob b sched).no_exit
    simp only [feedFile] at hx hw hk ⊢
    simp [step, hx, serveContentsStep, hw, hk]
  · have hc := Ctl.ctl_run env b sched
    have hr := Rec.rec_run hglob b sched
    have hcl := hc.writer_done hw
    refine ⟨hcl, ?_⟩
    have h3 := hr.copied
    have h2 := hr.handed
    simp only [feedFile] at hw hcl ⊢
    rcases hc.closed_iff.mp hcl with hf | hf <;>
      simp [hf, hw, FeederPc.todo, FeederPc.heldName, WriterPc.heldName, opened] at h2 h3 <;>
      simp only [opened] <;> rw [h3, h2]
  · obtain ⟨ext, -, hd⟩ := run_completes hglob b sched
    exact ⟨ext, (Ctl.ctl_run _ b _).feeder_done hd⟩
  · have hs := Sock.sock_run hglob b sched
    exact ⟨⟨_, hs.bytes⟩, ⟨_, hs.results⟩, socketErrors_run env b sched⟩
  · have hc : Ctl (feedFile env b sched) := Ctl.ctl_run env b sched
    have hs := Sock.sock_run hglob b sched
    have hcl := hc.writer_done hw
    have h1 := hs.bytes
    have h2 := hs.results
    have he := socketErrors_run env b sched
    have hfin : (feedFile env b sched).conn.written = takeBudget b (expected env paths) ∧
        (feedFile env b sched).copies = copyResults b (streamSizes env paths) := by
      rcases hc.closed_iff.mp hcl with hf | hf <;>
        simpa [hf, hw, FeederPc.todo, FeederPc.heldData, WriterPc.heldData, FeederPc.heldSize,
          WriterPc.heldSize, expected_nil, streamSizes, takeBudget_nil, copyResults]
          using And.intro h1 h2
    exact ⟨hfin.1, hfin.2, by rw [he, hfin.2]⟩

theorem serveContents_continues_after_copy_error_witness :
    envAB.glob = some ["a.txt", "b.txt"] ∧
    (feedFile envAB (some 1) (roundRobin 16)).writer = .done ∧
    (feedFile envAB (some 1) (roundRobin 16)).conn.written = [65] ∧
    (feedFile envAB (some 1) (roundRobin 16)).copies = [("a.txt", false), ("b.txt", false)] ∧
    socketErrors (feedFile envAB (some 1) (roundRobin 16)).log = 2 :=
  ⟨rfl, by decide,
    (serveContents_continues_after_copy_error envAB ["a.txt", "b.txt"] (some 1) rfl).2.2.2.2.2
      (roundRobin 16) (by decide)⟩

theorem opened_withoutReadErrors (env : Env) (paths : List String) :
    opened env.withoutReadErrors paths = opened env paths := by
  induction paths with
  | nil => rfl
  | cons p ps ih =>
    simp only [opened] at ih ⊢
    simp only [List.filter_cons, ih]
    cases h : env.openFile p <;> simp [Env.withoutReadErrors, h]

theorem expected_withoutReadErrors (env : Env) (paths : List String) :
    expected env.withoutReadErrors paths = expected env paths := by
  induction paths with
  | nil => rfl
  | cons p ps ih =>
    simp only [expected] at ih ⊢
    simp only [List.map_cons, concatBytes, ih]
    cases h : env.openFile p <;> simp [Env.withoutReadErrors, contentOf, h, File.bytes]

/-- C4: when the glob returns `paths` and all writes to the connection succeed,
then whatever read errors the files have, once `feedFile` has returned the
connection holds, for each opened file in order, exactly the bytes read before
its read ended (for a file failing after k bytes, those k bytes, directly
followed by the bytes of the next file), every `io.Copy` of `serveContents`
has returned a nil error and no "Error copying to socket" line is logged; the
bytes written, the streams received and the copy results are those of a run in
which no file has a read error; and `feedFile` can always run on until it
returns. -/
theorem read_error_ends_stream_silently (env : Env) (paths : List String)
    (hglob : env.glob = some paths) :
    (∀ sched, (feedFile env none sched).feeder = .done →
      (feedFile env none sched).conn.written
        = concatBytes ((paths.filterMap env.openFile).map File.bytes) ∧
      (feedFile env none sched).copies = (opened env paths).map (fun p => (p, true)) ∧
      socketErrors (feedFile env none sched).log = 0) ∧
    (∀ sched sched', (feedFile env none sched).feeder = .done →
      (feedFile env.withoutReadErrors none sched').feeder = .done →
      (feedFile env none sched).conn.written = (feedFile env.withoutReadErrors none sched').conn.written ∧
      (feedFile env none sched).received = (feedFile env.withoutReadErrors none sched').received ∧
      (feedFile env none sched).copies = (feedFile env.withoutReadErrors none sched').copies) ∧
    (∀ sched, ∃ ext, (feedFile env none (sched ++ ext)).feeder = .done) := by
  have key : ∀ (e : Env), e.glob = some paths → ∀ sched, (feedFile e none sched).feeder = .done →
      (feedFile e none sched).conn.written = expected e paths ∧
      (feedFile e none sched).received = opened e paths ∧
      (feedFile e none sched).copies = (opened e paths).map (fun p => (p, true)) ∧
      socketErrors (feedFile e none sched).log = 0 := by
    intro e hg sched hd
    have hw := (Ctl.ctl_run e none sched).feeder_done hd
    have hD := Data.data_run hg sched
    have hR := (Rec.rec_run hg none sched).rec_final hd hw
    refine ⟨hD.data_final hd hw, hR.2.1, ?_, hD.no_socket_error⟩
    have := copies_all_true hD.copies_ok
    rw [hR.2.2.1] at this
    exact this
  refine ⟨fun sched hd => ?_, fun sched sched' hd hd' => ?_, fun sched => ?_⟩
  · obtain ⟨h1, -, h3, h4⟩ := key env hglob sched hd
    exact ⟨by rw [h1, expected_eq_filterMap], h3, h4⟩
  · obtain ⟨h1, h2, h3, -⟩ := key env hglob sched hd
    obtain ⟨h1', h2', h3', -⟩ := key env.withoutReadErrors hglob sched' hd'
    rw [h1, h2, h3, h1', h2', h3', opened_withoutReadErrors, expected_withoutReadErrors]
    exact ⟨rfl, rfl, rfl⟩
  · obtain ⟨ext, -, hd⟩ := run_completes hglob none sched
    exact ⟨ext, hd⟩

theorem read_error_ends_stream_silently_witness :
    envBroken.glob = some ["a.txt", "b.txt"] ∧
    (feedFile envBroken none (roundRobin 16)).log = [.errorCopyingFrom "a.txt"] ∧
    (feedFile envBroken none (roundRobin 16)).conn.written = [65, 67, 68] ∧
    (feedFile envBroken none (roundRobin 16)).copies = [("a.txt", true), ("b.txt", true)] ∧
    socketErrors (feedFile envBroken none (roundRobin 16)).log = 0 :=
  ⟨rfl, by decide,
    (read_error_ends_stream_silently envBroken ["a.txt", "b.txt"] rfl).1 (roundRobin 16)
      (by decide)⟩

/-- C5: when the glob returns the empty list, then for every connection and
under every schedule: no stream is received from the channel, nothing is
written to the connection, nothing is logged and the process does not exit;
the writer returns only after the channel is closed and the connection is
closed only after the writer has returned; and `feedFile` can always run on
until it has closed the connection. -/
theorem feedFile_empty_glob (env : Env) (b : Option Nat) (hglob : env.glob = some []) :
    (∀ sched, (feedFile env b sched).received = [] ∧ (feedFile env b sched).conn.written = [] ∧
      (feedFile env b sched).log = [] ∧ (feedFile env b sched).exit = none) ∧
    (∀ sched, ((feedFile env b sched).writer = .done → (feedFile env b sched).chanClosed = true) ∧
      ((feedFile env b sched).conn.closed = true → (feedFile env b sched).writer = .done)) ∧
    (∀ sched, ∃ ext, (feedFile env b (sched ++ ext)).chanClosed = true ∧
      (feedFile env b (sched ++ ext)).writer = .done ∧
      (feedFile env b (sched ++ ext)).conn.closed = true) := by
  have inv := fun sched => run_invariant env (fun s : State =>
      s.received = [] ∧ s.released = [] ∧ s.log = [] ∧ s.conn.written = [] ∧ s.exit = none ∧
      (s.feeder = .start ∨ s.feeder = .glob ∨ s.feeder = .loop [] ∨ s.feeder = .wait ∨
        s.feeder = .done) ∧
      (s.writer = .idle ∨ s.writer = .recv ∨ s.writer = .done))
    (by
      intro s s' h hs
      obtain ⟨h1, h2, h3, h4, h5, h6, h7⟩ := h
      cases hs <;> simp_all)
    sched (State.init (Conn.new b)) (by simp [State.init, Conn.new])
  refine ⟨fun sched => ?_, fun sched => ?_, fun sched => ?_⟩
  · obtain ⟨h1, -, h3, h4, h5, -, -⟩ := inv sched
    exact ⟨h1, h4, h3, h5⟩
  · have hc := Ctl.ctl_run env b sched
    exact ⟨hc.writer_done, fun h => hc.feeder_done (hc.conn_closed.mp h)⟩
  · obtain ⟨ext, -, hd⟩ := run_completes hglob b sched
    have hc := Ctl.ctl_run env b (sched ++ ext)
    exact ⟨ext, hc.closed_iff.mpr (.inr hd), hc.feeder_done hd, hc.conn_closed.mpr hd⟩

theorem feedFile_empty_glob_witness :
    envEmpty.glob = some [] ∧
    (feedFile envEmpty none [.feeder, .feeder, .feeder, .writer, .feeder]).feeder = .done ∧
    (feedFile envEmpty none [.feeder, .feeder, .feeder, .writer, .feeder]).conn.written = [] ∧
    (feedFile envEmpty none [.feeder, .feeder, .feeder, .writer, .feeder]).received = [] :=
  ⟨rfl, by decide,
    ((feedFile_empty_glob envEmpty none rfl).1 [.feeder, .feeder, .feeder, .writer, .feeder]).2.1,
    ((feedFile_empty_glob envEmpty none rfl).1 [.feeder, .feeder, .feeder, .writer, .feeder]).1⟩

/-- C6 (counterexample): with a failing glob, two steps of `feedFile` end in
`log.Fatalf`: the process has exited with status 1 while the channel is still
open, the writer is still at its receive and the connection has not been
closed; neither goroutine can step any more. -/
theorem failed_glob_exits_process :
    (feedFile envBadPattern none [.feeder, .feeder]).exit = some 1 ∧
    (feedFile envBadPattern none [.feeder, .feeder]).log = [.badPattern] ∧
    (feedFile envBadPattern none [.feeder, .feeder]).feeder = .glob ∧
    (feedFile envBadPattern none [.feeder, .feeder]).writer = .recv ∧
    (feedFile envBadPattern none [.feeder, .feeder]).chanClosed = false ∧
    (feedFile envBadPattern none [.feeder, .feeder]).conn.closed = false ∧
    step envBadPattern .feeder (feedFile envBadPattern none [.feeder, .feeder]) = none ∧
    step envBadPattern .writer (feedFile envBadPattern none [.feeder, .feeder]) = none := by
  decide

/-- C6 (amended): when the glob fails, then for every connection and under
every schedule the channel is never closed, the writer never returns,
`feedFile` never returns nor closes the connection, and nothing is written;
every run can be continued to the exit of the process with status 1, after
which no goroutine steps. -/
theorem failed_glob_is_fatal (env : Env) (b : Option Nat) (hglob : env.glob = none) :
    (∀ sched, (feedFile env b sched).chanClosed = false ∧ (feedFile env b sched).conn.closed = false ∧
      (feedFile env b sched).writer ≠ .done ∧ (feedFile env b sched).feeder ≠ .done ∧
      (feedFile env b sched).conn.written = []) ∧
    (∀ sched, ∃ ext, (feedFile env b (sched ++ ext)).exit = some 1) ∧
    (∀ sched t, (feedFile env b sched).exit = some 1 → step env t (feedFile env b sched) = none) := by
  have inv := fun sched => run_invariant env (fun s : State =>
      (s.feeder = .start ∨ s.feeder = .glob) ∧ (s.writer = .idle ∨ s.writer = .recv) ∧
      s.chanClosed = false ∧ s.conn = Conn.new b ∧ (s.exit = none ∨ s.exit = some 1) ∧
      s.released = [])
    (by
      intro s s' h hs
      obtain ⟨h1, h2, h3, h4, h5, h6⟩ := h
      cases hs <;> simp_all)
    sched (State.init (Conn.new b)) (by simp [State.init])
  refine ⟨fun sched => ?_, fun sched => ?_, fun sched t hx => ?_⟩
  · obtain ⟨h1, h2, h3, h4, -, -⟩ := inv sched
    simp only [feedFile]
    refine ⟨h3, by rw [h4]; rfl, ?_, ?_, by rw [h4]; rfl⟩
    · rcases h2 with h | h <;> simp [h]
    · rcases h1 with h | h <;> simp [h]
  · obtain ⟨ext, hext⟩ := exists_terminal env (feedFile env b sched)
    rw [← feedFile_append] at hext
    refine ⟨ext, ?_⟩
    obtain ⟨h1, -, -, -, h5, -⟩ := inv (sched ++ ext)
    rcases h5 with h5 | h5
    · have hF := hext .feeder
      simp only [feedFile] at hF
      simp only [step, h5] at hF
      rcases h1 with h | h
      · simp [feedFileStep, h] at hF
      · simp [feedFileStep, h, hglob] at hF
    · exact h5
  · simp only [step, hx]

theorem failed_glob_is_fatal_witness :
    envBadPattern.glob = none ∧
    (feedFile envBadPattern none [.feeder, .writer, .feeder, .writer]).chanClosed = false ∧
    (feedFile envBadPattern none [.feeder, .writer, .feeder, .writer]).conn.closed = false ∧
    (feedFile envBadPattern none [.feeder, .writer, .feeder, .writer]).exit = some 1 :=
  ⟨rfl,
    ((failed_glob_is_fatal envBadPattern none rfl).1 [.feeder, .writer, .feeder, .writer]).1,
    ((failed_glob_is_fatal envBadPattern none rfl).1 [.feeder, .writer, .feeder, .writer]).2.1,
    by decide⟩

theorem terminal_of_returned {env : Env} {s : State} (hf : s.feeder = .done)
    (hw : s.writer = .done) (hp : ∀ c ∈ s.released, pumpStep c = none) : Terminal env s := by
  intro t
  unfold step
  split
  · rfl
  · cases t with
    | feeder => simp [feedFileStep, hf]
    | writer => simp [serveContentsStep, hw]
    | pumpNext => simp [pumpNextStep, hf]
    | pumpCur => simp [pumpCurStep, hw]
    | pump i =>
      simp only [pumpReleasedStep]
      split
      · rename_i c hc
        rw [hp c (List.getElem?_mem hc)]
      · rfl

/-- C9 (failing input): a file delivered in two reads, on a connection whose
first write fails.  The writer abandons the stream after the first buffer;
`feedFile` returns and closes the connection, while the pump is left inside
`w.Write` with the second buffer: neither the pipe nor the file is closed, and
no thread can step any more. -/
theorem abandoned_pump_never_closes :
    (feedFile envTwoReads (some 0) (roundRobin 16)).feeder = .done ∧
    (feedFile envTwoReads (some 0) (roundRobin 16)).copies = [("a.txt", false)] ∧
    (feedFile envTwoReads (some 0) (roundRobin 16)).released.map
      (fun c => (c.pump, c.pipeClosed, c.fileClosed)) = [(.writing [66], false, false)] ∧
    Terminal envTwoReads (feedFile envTwoReads (some 0) (roundRobin 16)) :=
  ⟨by decide, by decide, by decide, terminal_of_returned (by decide) (by decide) (by decide)⟩

/-- A released stream keeps its place and the bytes it has still to deliver:
only its own pump touches it, and the pump delivers to nobody. -/
theorem released_remaining_step {env : Env} {s s' : State} {i : Nat} {c : Stream}
    (hs : Step env s s') (hc : s.released[i]? = some c) :
    ∃ c', s'.released[i]? = some c' ∧ c'.remaining = c.remaining := by
  have happ : ∀ x : Stream, (s.released ++ [x])[i]? = some c := by
    intro x
    have hi : i < s.released.length := by
      rcases List.getElem?_eq_some.mp hc with ⟨h, -⟩
      exact h
    rw [List.getElem?_append_left hi]
    exact hc
  cases hs with
  | readEof c₀ _ hw hr => exact ⟨c, happ c₀, rfl⟩
  | writeFail c₀ buf _ hw hk => exact ⟨c, happ c₀, rfl⟩
  | pumpReleased j c₀ c₁ l _ hr hp =>
    by_cases hij : j = i
    · subst hij
      have hcc : c₀ = c := by
        rw [hr] at hc
        exact Option.some.inj hc
      subst hcc
      have hj : j < s.released.length := by
        rcases List.getElem?_eq_some.mp hr with ⟨h, -⟩
        exact h
      exact ⟨c₁, by simp [List.getElem?_set, hj], pumpStep_remaining hp⟩
    · exact ⟨c, by simp [List.getElem?_set, hij, hc], rfl⟩
  | _ => exact ⟨c, hc, rfl⟩

/-- A stream released with bytes still to deliver is never closed: in every
continuation of the run, under every schedule, neither the write end of its
pipe nor its file is closed. -/
theorem released_with_bytes_never_closes (env : Env) (s : State) (i : Nat) (c : Stream)
    (hc : s.released[i]? = some c) (hr : c.remaining ≠ []) (ext : List Tid) :
    ∃ c', (run env ext s).released[i]? = some c' ∧ c'.pipeClosed = false ∧
      c'.fileClosed = false := by
  have inv := run_invariant env
    (fun s' : State => ∃ c', s'.released[i]? = some c' ∧ c'.remaining = c.remaining)
    (by
      intro s₁ s₂ h hs
      obtain ⟨c₁, h₁, h₂⟩ := h
      obtain ⟨c₂, h₃, h₄⟩ := released_remaining_step hs h₁
      exact ⟨c₂, h₃, h₄.trans h₂⟩)
    ext s ⟨c, hc, rfl⟩
  obtain ⟨c', h₁, h₂⟩ := inv
  refine ⟨c', h₁, ?_⟩
  rw [← h₂] at hr
  unfold Stream.remaining at hr
  unfold Stream.pipeClosed Stream.fileClosed
  split at hr <;> simp_all

/-- The exit paths of the pump that are reached.  When the glob returns `paths`,
then (1) on a connection whose writes all succeed, whatever read errors the
files have, no released stream is ever blocked, and every run can be
continued until `feedFile` has returned and the pump of every opened stream
has closed both the write end of the pipe and the file; (2) on any connection,
once no thread can step, every released stream has either both closed or its
pump blocked inside `w.Write`. -/
theorem pump_closes_pipe_and_file (env : Env) (paths : List String)
    (hglob : env.glob = some paths) :
    (∀ sched, ∀ c ∈ (feedFile env none sched).released, c.pipeClosed = true) ∧
    (∀ sched, ∃ ext, (feedFile env none (sched ++ ext)).feeder = .done ∧
      (feedFile env none (sched ++ ext)).released.map Stream.fileName = opened env paths ∧
      ∀ c ∈ (feedFile env none (sched ++ ext)).released,
        c.pipeClosed = true ∧ c.fileClosed = true) ∧
    (∀ b sched, Terminal env (feedFile env b sched) →
      ∀ c ∈ (feedFile env b sched).released,
        (c.pipeClosed = true ∧ c.fileClosed = true) ∨ ∃ p, c.pump = .writing p) := by
  refine ⟨fun sched c hc => ?_, fun sched => ?_, fun b sched ht c hc => ?_⟩
  · rcases (Data.data_run hglob sched).released_closed c hc with h | h <;>
      simp [Stream.pipeClosed, h]
  · obtain ⟨ext, ht, hd⟩ := run_completes hglob none sched
    have hx := (Rec.rec_run hglob none (sched ++ ext)).no_exit
    have hw := (Ctl.ctl_run env none (sched ++ ext)).feeder_done hd
    refine ⟨ext, hd, ((Rec.rec_run hglob none (sched ++ ext)).rec_final hd hw).2.2.2, fun c hc => ?_⟩
    have := ht.released hx (Data.data_run hglob (sched ++ ext)).released_closed c hc
    simp [Stream.pipeClosed, Stream.fileClosed, this]
  · obtain ⟨i, hi, hget⟩ := List.getElem_of_mem hc
    have hx := (Rec.rec_run hglob b sched).no_exit
    have h := ht (.pump i)
    simp only [feedFile] at hi hget hx h hc ⊢
    have hget' : (run env sched (State.init (Conn.new b))).released[i]? = some c := by
      rw [List.getElem?_eq_getElem hi, hget]
    simp only [step, hx, pumpReleasedStep, hget'] at h
    cases hp : pumpStep c with
    | some x => simp [hp] at h
    | none =>
      rcases pumpStep_eq_none hp with ⟨p, hp'⟩ | hp'
      · exact .inr ⟨p, hp'⟩
      · exact .inl (by simp [Stream.pipeClosed, Stream.fileClosed, hp'])

theorem pump_closes_pipe_and_file_witness :
    envBroken.glob = some ["a.txt", "b.txt"] ∧
    (feedFile envBroken none (roundRobin 16)).released.map
      (fun c => (c.fileName, c.ending, c.pipeClosed, c.fileClosed))
        = [("a.txt", .fail, true, true), ("b.txt", .eof, true, true)] ∧
    ((feedFile envBroken none (roundRobin 16)).released.all fun c => c.pipeClosed) = true :=
  ⟨rfl, by decide,
    List.all_eq_true.mpr
      ((pump_closes_pipe_and_file envBroken ["a.txt", "b.txt"] rfl).1 (roundRobin 16))⟩

/-! ## The connections of one process: theorems -/

theorem serverRun_append (envs : Nat → Env) (peers : Nat → Option Nat) (a b : List ServerEvent)
    (g : Server) :
    serverRun envs peers (a ++ b) g = serverRun envs peers b (serverRun envs peers a g) := by
  induction a generalizing g with
  | nil => rfl
  | cons e es ih =>
    simp only [List.cons_append, serverRun]
    cases serverStep envs peers e g <;> simp [ih]

theorem Handler.state_ofState (fd : Nat) (s : State) (hx : s.exit = none) :
    (Handler.ofState fd s).state s.conn s.log none = s := by
  rcases s with ⟨f, w, r, cc, c, x, l, rc, cp⟩
  simp only at hx
  subst hx
  rfl

theorem Ctl.ctl_of_handler {h : Handler} {conn : Conn} {l l' : List LogLine} {x x' : Option Nat}
    (hc : Ctl (h.state conn l x)) : Ctl (h.state conn l' x') := by
  obtain ⟨h1, h2, h3, h4, h5⟩ := hc
  exact ⟨h1, h2, h3, h4, h5⟩

theorem Sock.sock_of_handler {env : Env} {b : Option Nat} {paths : List String} {h : Handler}
    {conn : Conn} {l l' : List LogLine} {x x' : Option Nat}
    (hs : Sock env b paths (h.state conn l x)) : Sock env b paths (h.state conn l' x') := by
  obtain ⟨h1, h2⟩ := hs
  exact ⟨h1, h2⟩

theorem Step.exit_none {env : Env} {paths : List String} {s s' : State}
    (hg : env.glob = some paths) (hs : Step env s s') : s'.exit = none := by
  cases hs <;> simp_all

theorem Step.feeder_done {env : Env} {s s' : State} (hs : Step env s s')
    (hd : s.feeder = .done) : s'.feeder = .done := by
  cases hs <;> simp_all

theorem ServerInv.server_init (envs : Nat → Env) (peers : Nat → Option Nat)
    (paths : Nat → List String) : ServerInv envs peers paths Server.init := by
  constructor <;> simp [Server.init]

/-- What a step of thread `t` of handler `i` does to the process, in a state
that satisfies the invariant. -/
theorem serverStep_thread {envs : Nat → Env} {peers : Nat → Option Nat}
    {paths : Nat → List String} {g g' : Server} {i : Nat} {t : Tid}
    (hI : ServerInv envs peers paths g)
    (hs : serverStep envs peers (.thread i t) g = some g') :
    ∃ h conn s, g.handlers[i]? = some h ∧ h.fd = i ∧ g.sockets[i]? = some conn ∧
      step (envs i) t (h.state conn g.log none) = some s ∧
      g' = { sockets := g.sockets.set i s.conn, handlers := g.handlers.set i (Handler.ofState i s),
             log := s.log, exit := s.exit } := by
  unfold serverStep at hs
  simp only [hI.no_exit] at hs
  split at hs
  · simp at hs
  · rename_i h hh
    obtain ⟨hfd, conn, hconn, -, -⟩ := hI.each i h hh
    rw [hfd] at hs
    simp only [hconn] at hs
    split at hs
    · simp at hs
    · rename_i s hst
      exact ⟨h, conn, s, hh, hfd, hconn, hst, (Option.some.inj hs).symm⟩

theorem ServerInv.server_step {envs : Nat → Env} {peers : Nat → Option Nat}
    {paths : Nat → List String} (hglob : ∀ i, (envs i).glob = some (paths i))
    {e : ServerEvent} {g g' : Server} (hI : ServerInv envs peers paths g)
    (hs : serverStep envs peers e g = some g') : ServerInv envs peers paths g' := by
  cases e with
  | accept =>
    simp only [serverStep, hI.no_exit] at hs
    cases hs
    refine ⟨by simp [hI.no_exit], by simp [hI.same_length], ?_⟩
    intro k hk hget
    by_cases hlt : k < g.handlers.length
    · rw [List.getElem?_append_left hlt] at hget
      obtain ⟨hfd, conn, hconn, hc, hsk⟩ := hI.each k hk hget
      refine ⟨hfd, conn, ?_, hc, hsk⟩
      show (g.sockets ++ [Conn.new (peers g.sockets.length)])[k]? = some conn
      rw [List.getElem?_append_left (hI.same_length ▸ hlt)]
      exact hconn
    · have hk' : k = g.handlers.length := by
        have := (List.getElem?_eq_some.mp hget).1
        simp at this
        omega
      subst hk'
      simp only [List.getElem?_concat_length, Option.some.injEq] at hget
      subst hget
      refine ⟨hI.same_length.symm, Conn.new (peers g.sockets.length), ?_, ?_, ?_⟩
      · show (g.sockets ++ [Conn.new (peers g.sockets.length)])[g.handlers.length]? = _
        rw [hI.same_length]
        simp
      · have h₀ : Ctl ((Handler.start g.sockets.length).state
            (Conn.new (peers g.sockets.length)) [] none) := Ctl.ctl_init _
        exact h₀.ctl_of_handler
      · rw [hI.same_length]
        exact Sock.sock_init _ _ _ _ _
  | thread i t =>
    obtain ⟨h, conn, s, hh, hfd, hconn, hst, hg'⟩ := serverStep_thread hI hs
    obtain ⟨-, conn₀, hconn₀, hc, hsk⟩ := hI.each i h hh
    have hcc : conn₀ = conn := by
      rw [hconn] at hconn₀
      exact (Option.some.inj hconn₀).symm
    subst hcc
    have hstep := Step.of_step hst
    have hx : s.exit = none := Step.exit_none (hglob i) hstep
    have hi : i < g.handlers.length := (List.getElem?_eq_some.mp hh).1
    have hi' : i < g.sockets.length := (List.getElem?_eq_some.mp hconn).1
    subst hg'
    refine ⟨hx, by simp [hI.same_length], ?_⟩
    intro k hk hget
    by_cases hki : k = i
    · subst hki
      simp only [List.getElem?_set, hi, if_true, Option.some.injEq] at hget
      subst hget
      refine ⟨rfl, s.conn, by simp [List.getElem?_set, hi'], ?_, ?_⟩
      · rw [Handler.state_ofState _ _ hx]
        exact hc.ctl_step hstep
      · rw [Handler.state_ofState _ _ hx]
        exact hsk.sock_step (hglob k) hc hstep
    · have hik : ¬ i = k := fun h => hki h.symm
      simp only [List.getElem?_set, hik, if_false] at hget
      obtain ⟨hfd', conn', hconn', hc', hsk'⟩ := hI.each k hk hget
      exact ⟨hfd', conn', by simp [List.getElem?_set, hik, hconn'], hc'.ctl_of_handler,
        hsk'.sock_of_handler⟩

theorem ServerInv.server_run {envs : Nat → Env} {peers : Nat → Option Nat}
    {paths : Nat → List String} (hglob : ∀ i, (envs i).glob = some (paths i))
    (es : List ServerEvent) {g : Server} (hI : ServerInv envs peers paths g) :
    ServerInv envs peers paths (serverRun envs peers es g) := by
  induction es generalizing g with
  | nil => exact hI
  | cons e es ih =>
    simp only [serverRun]
    cases hs : serverStep envs peers e g with
    | none => exact ih hI
    | some g' => exact ih (hI.server_step hglob hs)

/-- A run made of steps of handler `i` alone does to it what `run` does to its
state. -/
theorem serverRun_own {envs : Nat → Env} {peers : Nat → Option Nat}
    {paths : Nat → List String} (hglob : ∀ i, (envs i).glob = some (paths i)) (i : Nat)
    (ext : List Tid) {g : Server} (hI : ServerInv envs peers paths g) {h : Handler}
    {conn : Conn} (hh : g.handlers[i]? = some h) (hconn : g.sockets[i]? = some conn) :
    ∃ h' conn', (serverRun envs peers (ext.map (.thread i)) g).handlers[i]? = some h' ∧
      (serverRun envs peers (ext.map (.thread i)) g).sockets[i]? = some conn' ∧
      h'.state conn' (serverRun envs peers (ext.map (.thread i)) g).log none
        = run (envs i) ext (h.state conn g.log none) := by
  induction ext generalizing g h conn with
  | nil => exact ⟨h, conn, hh, hconn, rfl⟩
  | cons t ts ih =>
    simp only [List.map_cons, serverRun, run]
    cases hs : serverStep envs peers (.thread i t) g with
    | none =>
      have hfd := (hI.each i h hh).1
      have hst : step (envs i) t (h.state conn g.log none) = none := by
        cases hst : step (envs i) t (h.state conn g.log none) with
        | none => rfl
        | some s => simp [serverStep, hI.no_exit, hh, hfd, hconn, hst] at hs
      simp only [hst]
      exact ih hI hh hconn
    | some g' =>
      obtain ⟨h₀, conn₀, s, hh₀, -, hconn₀, hst, hg'⟩ := serverStep_thread hI hs
      have e₁ : h₀ = h := by rw [hh] at hh₀; exact (Option.some.inj hh₀).symm
      have e₂ : conn₀ = conn := by rw [hconn] at hconn₀; exact (Option.some.inj hconn₀).symm
      subst e₁ e₂
      have hx : s.exit = none := Step.exit_none (hglob i) (Step.of_step hst)
      have hi : i < g.handlers.length := (List.getElem?_eq_some.mp hh).1
      have hi' : i < g.sockets.length := (List.getElem?_eq_some.mp hconn).1
      have hI' := hI.server_step hglob hs
      simp only [hst]
      have hh' : g'.handlers[i]? = some (Handler.ofState i s) := by
        rw [hg']; simp [List.getElem?_set, hi]
      have hconn' : g'.sockets[i]? = some s.conn := by
        rw [hg']; simp [List.getElem?_set, hi']
      obtain ⟨h', conn', h₁, h₂, h₃⟩ := ih hI' hh' hconn'
      refine ⟨h', conn', h₁, h₂, ?_⟩
      rw [h₃]
      have hlog : g'.log = s.log := by rw [hg']
      rw [hlog, Handler.state_ofState _ _ hx]

/-- A handler that has returned stays so, whatever happens in the process. -/
theorem serverRun_done (envs : Nat → Env) (peers : Nat → Option Nat) (es : List ServerEvent)
    {g : Server} {i : Nat} {h : Handler} (hh : g.handlers[i]? = some h)
    (hd : h.feeder = .done) :
    ∃ h', (serverRun envs peers es g).handlers[i]? = some h' ∧ h'.feeder = .done := by
  induction es generalizing g h with
  | nil => exact ⟨h, hh, hd⟩
  | cons e es ih =>
    simp only [serverRun]
    cases hs : serverStep envs peers e g with
    | none => exact ih hh hd
    | some g' =>
      have hi : i < g.handlers.length := (List.getElem?_eq_some.mp hh).1
      unfold serverStep at hs
      split at hs
      · simp at hs
      · cases e with
        | accept =>
          simp only [Option.some.injEq] at hs
          subst hs
          have hh' : (g.handlers ++ [Handler.start g.sockets.length])[i]? = some h := by
            rw [List.getElem?_append_left hi]; exact hh
          exact ih hh' hd
        | thread k t =>
          simp only at hs
          split at hs
          · simp at hs
          · rename_i hk hhk
            split at hs
            · simp at hs
            · rename_i conn hconn
              split at hs
              · simp at hs
              · rename_i s hst
                simp only [Option.some.injEq] at hs
                subst hs
                by_cases hki : k = i
                · subst hki
                  have e₁ : hk = h := by rw [hh] at hhk; exact (Option.some.inj hhk).symm
                  subst e₁
                  have hds := Step.feeder_done (Step.of_step hst) hd
                  have hh' : (g.handlers.set k (Handler.ofState hk.fd s))[k]?
                      = some (Handler.ofState hk.fd s) := by
                    simp [List.getElem?_set, hi]
                  exact ih hh' hds
                · have hh' : (g.handlers.set k (Handler.ofState hk.fd s))[i]? = some h := by
                    simp [List.getElem?_set, hki, hh]
                  exact ih hh' hd

/-- C8: connections accepted by one process and served at the same time, the
`i`-th handler having its own glob result `paths i` and its own files.  For
every interleaving of the accepts and of the threads of all handlers: each
handler works on the connection `main` handed to it, and a step of a thread
of one handler changes no other connection; every connection holds at each
moment a beginning of what its own peer takes of the concatenation of its own
handler's files, and exactly that once its `feedFile` has returned: the
complete concatenation, in glob order, when its files open and are read
without error and its peer accepts every write, whatever the other peers do;
and for every two accepted connections the run can be continued until both
`feedFile` have returned. -/
theorem connections_do_not_interfere (envs : Nat → Env) (peers : Nat → Option Nat)
    (paths : Nat → List String) (hglob : ∀ i, (envs i).glob = some (paths i)) :
    (∀ es i h, (serverRun envs peers es Server.init).handlers[i]? = some h →
      h.fd = i ∧ i < (serverRun envs peers es Server.init).sockets.length) ∧
    (∀ es i t g', serverStep envs peers (.thread i t) (serverRun envs peers es Server.init)
        = some g' →
      ∀ j, j ≠ i → g'.sockets[j]? = (serverRun envs peers es Server.init).sockets[j]?) ∧
    (∀ es i conn, (serverRun envs peers es Server.init).sockets[i]? = some conn →
      conn.written <+: takeBudget (peers i) (expected (envs i) (paths i))) ∧
    (∀ es i,
      ((serverRun envs peers es Server.init).handlers[i]?).map Handler.feeder = some .done →
      ((serverRun envs peers es Server.init).sockets[i]?).map Conn.written
        = some (takeBudget (peers i) (expected (envs i) (paths i)))) ∧
    (∀ es i (files : List File), peers i = none → (paths i).map (envs i).openFile = files.map some →
      (∀ f ∈ files, f.ending = .eof) →
      ((serverRun envs peers es Server.init).handlers[i]?).map Handler.feeder = some .done →
      ((serverRun envs peers es Server.init).sockets[i]?).map Conn.written
        = some (concatBytes (files.map File.bytes))) ∧
    (∀ es i j, i < (serverRun envs peers es Server.init).handlers.length →
      j < (serverRun envs peers es Server.init).handlers.length →
      ∃ ext,
        ((serverRun envs peers (es ++ ext) Server.init).handlers[i]?).map Handler.feeder
          = some .done ∧
        ((serverRun envs peers (es ++ ext) Server.init).handlers[j]?).map Handler.feeder
          = some .done) := by
  have inv : ∀ es, ServerInv envs peers paths (serverRun envs peers es Server.init) :=
    fun es => ServerInv.server_run hglob es (ServerInv.server_init envs peers paths)
  have done : ∀ es i,
      ((serverRun envs peers es Server.init).handlers[i]?).map Handler.feeder = some .done →
      ((serverRun envs peers es Server.init).sockets[i]?).map Conn.written
        = some (takeBudget (peers i) (expected (envs i) (paths i))) := by
    intro es i hd
    cases hh : (serverRun envs peers es Server.init).handlers[i]? with
    | none => simp [hh] at hd
    | some h =>
      simp only [hh, Option.map_some', Option.some.injEq] at hd
      obtain ⟨-, conn, hconn, hc, hs⟩ := (inv es).each i h hh
      have hw : h.writer = .done := hc.feeder_done hd
      have hb := hs.bytes
      simp only [Handler.state, hd, hw, WriterPc.heldData, FeederPc.heldData, FeederPc.todo,
        expected_nil, List.append_nil, takeBudget_nil] at hb
      simp [hconn, hb]
  have finish : ∀ (g : Server), ServerInv envs peers paths g → ∀ i, i < g.handlers.length →
      ∃ ext : List Tid, ∃ h', (serverRun envs peers (ext.map (.thread i)) g).handlers[i]?
        = some h' ∧ h'.feeder = .done := by
    intro g hI i hi
    obtain ⟨h, hh⟩ : ∃ h, g.handlers[i]? = some h := ⟨_, List.getElem?_eq_getElem hi⟩
    obtain ⟨-, conn, hconn, -, -⟩ := hI.each i h hh
    obtain ⟨ext, hter⟩ := exists_terminal (envs i) (h.state conn g.log none)
    obtain ⟨h', conn', h₁, h₂, h₃⟩ := serverRun_own hglob i ext hI hh hconn
    have hI' := ServerInv.server_run hglob (ext.map (.thread i)) hI
    obtain ⟨-, conn'', hconn'', hc, -⟩ := hI'.each i h' h₁
    have e : conn'' = conn' := by rw [h₂] at hconn''; exact (Option.some.inj hconn'').symm
    subst e
    rw [← h₃] at hter
    exact ⟨ext, h', h₁, hter.done hc rfl⟩
  refine ⟨fun es i h hh => ?_, fun es i t g' hs j hj => ?_, fun es i conn hconn => ?_, done,
    fun es i files hp ho _ hd => ?_, fun es i j hi hj => ?_⟩
  · obtain ⟨hfd, conn, hconn, -, -⟩ := (inv es).each i h hh
    exact ⟨hfd, (List.getElem?_eq_some.mp hconn).1⟩
  · obtain ⟨h, conn, s, -, -, -, -, hg'⟩ := serverStep_thread (inv es) hs
    rw [hg']
    have hij : ¬ i = j := fun h => hj h.symm
    simp [List.getElem?_set, hij]
  · have hi : i < (serverRun envs peers es Server.init).handlers.length := by
      rw [(inv es).same_length]
      exact (List.getElem?_eq_some.mp hconn).1
    obtain ⟨-, conn', hconn', -, hs⟩ :=
      (inv es).each i _ (List.getElem?_eq_getElem hi)
    have e : conn' = conn := by rw [hconn] at hconn'; exact (Option.some.inj hconn').symm
    subst e
    exact ⟨_, hs.bytes⟩
  · rw [done es i hd, hp, ← expected_eq_of_map ho]
    rfl
  · obtain ⟨ext₁, h₁, hh₁, hd₁⟩ := finish _ (inv es) i hi
    have inv₁ := ServerInv.server_run hglob (ext₁.map (.thread i)) (inv es)
    have hj₁ : j < (serverRun envs peers (ext₁.map (.thread i))
        (serverRun envs peers es Server.init)).handlers.length := by
      have hl : ∀ (es' : List ServerEvent) (g : Server), g.handlers.length
          ≤ (serverRun envs peers es' g).handlers.length := by
        intro es'
        induction es' with
        | nil => intro g; exact Nat.le_refl _
        | cons e es' ih =>
          intro g
          simp only [serverRun]
          cases hs : serverStep envs peers e g with
          | none => exact ih g
          | some g' =>
            refine Nat.le_trans ?_ (ih g')
            unfold serverStep at hs
            split at hs
            · simp at hs
            · cases e with
              | accept =>
                simp only [Option.some.injEq] at hs
                subst hs
                simp
              | thread k t =>
                simp only at hs
                split at hs
                · simp at hs
                · split at hs
                  · simp at hs
                  · split at hs
                    · simp at hs
                    · simp only [Option.some.injEq] at hs
                      subst hs
                      simp
      exact Nat.lt_of_lt_of_le hj (hl _ _)
    obtain ⟨ext₂, h₂, hh₂, hd₂⟩ := finish _ inv₁ j hj₁
    obtain ⟨h₁', hh₁', hd₁'⟩ := serverRun_done envs peers (ext₂.map (.thread j)) hh₁ hd₁
    refine ⟨ext₁.map (.thread i) ++ ext₂.map (.thread j), ?_, ?_⟩
    · rw [serverRun_append, serverRun_append, hh₁']
      simp [hd₁']
    · rw [serverRun_append, serverRun_append, hh₂]
      simp [hd₂]

theorem connections_do_not_interfere_witness :
    twoEnvs 0 = envAB ∧ twoEnvs 1 = envTwoReads ∧
    (serverRun twoEnvs firstPeerFails twoClients Server.init).handlers.map Handler.feeder
      = [.done, .done] ∧
    socketErrors (serverRun twoEnvs firstPeerFails twoClients Server.init).log = 2 ∧
    ((serverRun twoEnvs firstPeerFails twoClients Server.init).sockets[0]?).map Conn.written
      = some [65] ∧
    ((serverRun twoEnvs firstPeerFails twoClients Server.init).sockets[1]?).map Conn.written
      = some [65, 66] :=
  ⟨rfl, rfl, by decide, by decide,
    (connections_do_not_interfere twoEnvs firstPeerFails twoPaths
      (fun i => by unfold twoEnvs twoPaths; split <;> rfl)).2.2.2.1 twoClients 0 (by decide),
    (connections_do_not_interfere twoEnvs firstPeerFails twoPaths
      (fun i => by unfold twoEnvs twoPaths; split <;> rfl)).2.2.2.2.1
        twoClients 1 [fileTwoReads] rfl (by decide) (by decide) (by decide)⟩


/-! ## The process -/

theorem procRun_invariant (cfg : Config) (P : Proc → Prop)
    (hstep : ∀ e p p', P p → procStep cfg e p = some p' → P p') :
    ∀ (es : List Event) (p : Proc), P p → P (procRun cfg es p) := by
  intro es
  induction es with
  | nil => intro p h; exact h
  | cons e es ih =>
    intro p h
    simp only [procRun]
    cases hs : procStep cfg e p with
    | none => exact ih p h
    | some p' => exact ih p' (hstep e p p' h hs)

theorem validateOptions_eq (socketName filePattern : String) :
    validateOptions socketName filePattern =
      if socketName = "" then (["You must provide a name"], some 1)
      else if filePattern = "" then (["You must provide a pattern"], some 1)
      else ([], none) := rfl

theorem ProcInv.proc_init : ProcInv Proc.boot := by
  constructor <;> simp [Proc.boot]

theorem ProcInv.proc_step {cfg : Config} {e : Event} {p p' : Proc} (h : ProcInv p)
    (hs : procStep cfg e p = some p') : ProcInv p' := by
  obtain ⟨h1, h2, h3, h4, h5, h6, h7⟩ := h
  rcases p with ⟨m, w, mu, l, sg, hd, ex, out⟩
  cases ex with
  | some _ => simp [procStep] at hs
  | none =>
    cases e with
    | main =>
      cases m <;> simp only [procStep, mainStep] at hs
      · split at hs <;> (cases hs; constructor <;> simp_all)
      · split at hs <;> (cases hs; constructor <;> simp_all)
      · cases hs; constructor <;> simp_all
      · split at hs
        · cases hs; constructor <;> simp_all
        · simp at hs
      · split at hs <;> (cases hs; constructor <;> simp_all)
      · cases hs; constructor <;> simp_all
      · split at hs <;> (cases hs; constructor <;> simp_all)
    | acceptError =>
      cases m <;> simp only [procStep] at hs <;> first | (simp at hs; done) | skip
      cases hs; constructor <;> simp_all
    | watcher =>
      cases w <;> simp only [procStep, catchSigintStep] at hs
      · simp at hs
      · split at hs
        · cases hs; constructor <;> simp_all
        · simp at hs
      · split at hs
        · cases hs; constructor <;> simp_all
        · simp at hs
      · split at hs <;> (cases hs; constructor <;> simp_all)
      · cases hs; constructor <;> simp_all
    | interrupt =>
      cases w <;> simp only [procStep] at hs <;> (cases hs; constructor <;> simp_all)
    | handlerGlob =>
      simp only [procStep] at hs
      split at hs
      · cases hs; constructor <;> simp_all
      · simp at hs

theorem ProcInv.proc_run (cfg : Config) (es : List Event) : ProcInv (procRun cfg es Proc.boot) :=
  procRun_invariant cfg ProcInv (fun _ _ _ h hs => h.proc_step hs) es _ ProcInv.proc_init

/-- C7: `validateOptions` exits with status 1, after printing one line, exactly
when the socket name or the pattern is empty, and otherwise returns without
printing; in the process, when one of them is empty every run stays in the
initial state, or in the state where `main` has exited with status 1 at
`validateOptions`, or in the initial state killed by an interrupt (and only
in the first two when no interrupt arrives): the watcher is never installed,
the mutex never taken, the listener never created and no handler started;
the first step of `main` exits in that case and goes on to `catchSigint`
otherwise. -/
theorem validateOptions_exits_iff (cfg : Config) :
    (((validateOptions cfg.socketName cfg.filePattern).2 = some 1 ∧
        (validateOptions cfg.socketName cfg.filePattern).1.length = 1) ↔
      (cfg.socketName = "" ∨ cfg.filePattern = "")) ∧
    (validateOptions cfg.socketName cfg.filePattern = ([], none) ↔
      ¬ (cfg.socketName = "" ∨ cfg.filePattern = "")) ∧
    ((cfg.socketName = "" ∨ cfg.filePattern = "") → ∀ es,
      (procRun cfg es Proc.init = Proc.init ∨
        procRun cfg es Proc.init =
          { Proc.init with exit := some 1,
                           out := (validateOptions cfg.socketName cfg.filePattern).1 } ∨
        procRun cfg es Proc.init = { Proc.init with exit := some killedByInterrupt }) ∧
      (procRun cfg es Proc.init).watcher = .absent ∧
      (procRun cfg es Proc.init).listener = .nil ∧
      (procRun cfg es Proc.init).mutex = none ∧
      (procRun cfg es Proc.init).handlers = 0) ∧
    ((cfg.socketName = "" ∨ cfg.filePattern = "") → ∀ es, Event.interrupt ∉ es →
      (procRun cfg es Proc.init = Proc.init ∨
        procRun cfg es Proc.init =
          { Proc.init with exit := some 1,
                           out := (validateOptions cfg.socketName cfg.filePattern).1 })) ∧
    ((cfg.socketName = "" ∨ cfg.filePattern = "") →
      (procRun cfg [.main] Proc.init).exit = some 1) ∧
    (¬ (cfg.socketName = "" ∨ cfg.filePattern = "") →
      (procRun cfg [.main] Proc.init).exit = none ∧
      (procRun cfg [.main] Proc.init).main = .watch ∧
      (procRun cfg [.main] Proc.init).out = []) := by
  have hv := validateOptions_eq cfg.socketName cfg.filePattern
  have hcode : (cfg.socketName = "" ∨ cfg.filePattern = "") →
      (validateOptions cfg.socketName cfg.filePattern).2 = some 1 := by
    intro hbad
    rw [hv]
    by_cases h1 : cfg.socketName = ""
    · simp [h1]
    · rcases hbad with h | h
      · exact absurd h h1
      · simp [h1, h]
  refine ⟨?_, ?_, ?_, ?_, ?_, ?_⟩
  · rw [hv]
    by_cases h1 : cfg.socketName = ""
    · simp [h1]
    · by_cases h2 : cfg.filePattern = "" <;> simp [h1, h2]
  · rw [hv]
    by_cases h1 : cfg.socketName = ""
    · simp [h1]
    · by_cases h2 : cfg.filePattern = "" <;> simp [h1, h2]
  · intro hbad es
    have hcode := hcode hbad
    have inv := procRun_invariant cfg (fun p : Proc =>
        p = Proc.init ∨
        p = { Proc.init with exit := some 1,
                             out := (validateOptions cfg.socketName cfg.filePattern).1 } ∨
        p = { Proc.init with exit := some killedByInterrupt })
      (by
        intro e p p' h hs
        rcases h with h | h | h
        · subst h
          cases e <;> simp [procStep, Proc.init, mainStep, catchSigintStep, hcode] at hs
          · exact .inr (.inl (by rw [← hs]; rfl))
          · exact .inr (.inr (by rw [← hs]; rfl))
        · subst h
          simp [procStep] at hs
        · subst h
          simp [procStep] at hs)
      es Proc.init (.inl rfl)
    refine ⟨inv, ?_⟩
    rcases inv with h | h | h <;> rw [h] <;> simp [Proc.init]
  · intro hbad es
    have hcode := hcode hbad
    have key : ∀ (es : List Event) (p : Proc),
        (p = Proc.init ∨
          p = { Proc.init with exit := some 1,
                               out := (validateOptions cfg.socketName cfg.filePattern).1 }) →
        Event.interrupt ∉ es →
        (procRun cfg es p = Proc.init ∨
          procRun cfg es p =
            { Proc.init with exit := some 1,
                             out := (validateOptions cfg.socketName cfg.filePattern).1 }) := by
      intro es
      induction es with
      | nil => intro p hp _; exact hp
      | cons e es ih =>
        intro p hp hne
        have hes : Event.interrupt ∉ es := fun h => hne (List.mem_cons_of_mem _ h)
        have he : e ≠ Event.interrupt := fun h => hne (by simp [h])
        simp only [procRun]
        rcases hp with h | h
        · subst h
          cases e
          · simp only [procStep, Proc.init, mainStep, hcode]
            exact ih _ (.inr rfl) hes
          · simp only [procStep, Proc.init]
            exact ih _ (.inl rfl) hes
          · simp only [procStep, Proc.init, catchSigintStep]
            exact ih _ (.inl rfl) hes
          · exact absurd rfl he
          · simp only [procStep, Proc.init]
            exact ih _ (.inl rfl) hes
        · subst h
          simp only [procStep]
          exact ih _ (.inr rfl) hes
    exact key es Proc.init (.inl rfl)
  · intro hbad
    have hcode := hcode hbad
    simp [procRun, procStep, Proc.init, mainStep, hcode]
  · intro hgood
    have hcode : (validateOptions cfg.socketName cfg.filePattern).2 = none := by
      rw [hv]
      by_cases h1 : cfg.socketName = ""
      · exact absurd (.inl h1) hgood
      · by_cases h2 : cfg.filePattern = ""
        · exact absurd (.inr h2) hgood
        · simp [h1, h2]
    simp [procRun, procStep, Proc.init, mainStep, hcode]

theorem validateOptions_exits_iff_witness :
    (cfgNoName.socketName = "" ∨ cfgNoName.filePattern = "") ∧
    (procRun cfgNoName [.main] Proc.init).exit = some 1 ∧
    (procRun cfgNoName [.main, .interrupt, .watcher, .main] Proc.init).watcher = .absent ∧
    (procRun cfgNoName [.main, .interrupt, .watcher, .main] Proc.init).listener = .nil :=
  ⟨.inl rfl, (validateOptions_exits_iff cfgNoName).2.2.2.2.1 (.inl rfl),
    ((validateOptions_exits_iff cfgNoName).2.2.1 (.inl rfl)
      [.main, .interrupt, .watcher, .main]).2.1,
    ((validateOptions_exits_iff cfgNoName).2.2.1 (.inl rfl)
      [.main, .interrupt, .watcher, .main]).2.2.1⟩

/-- C10 (counterexample): both flags are given and the socket could be created,
but an interrupt is handled before `main` locks the mutex: the watcher finds
`listener == nil`, skips the close and calls `log.Fatalf`.  The process goes
from Uninitialized straight to Terminated: it is never Listening nor Closing,
and no `Accept` has failed (none was made). -/
theorem interrupt_before_listen_terminates :
    phases cfgGood earlyInterrupt Proc.boot =
      [.uninitialized, .uninitialized, .uninitialized, .uninitialized, .uninitialized,
       .uninitialized, .uninitialized, .uninitialized, .terminated] ∧
    (procRun cfgGood earlyInterrupt Proc.boot).exit = some 1 ∧
    (procRun cfgGood earlyInterrupt Proc.boot).listener = .nil ∧
    (procRun cfgGood earlyInterrupt Proc.boot).main = .lock ∧
    Event.acceptError ∉ earlyInterrupt := by
  decide

/-- C10 (amended): for every event possible in a reachable state of the process:
the listener is closed only by the watcher, holding the mutex, and only when
it exists (Closing is entered only from Listening); Listening is entered only
from Uninitialized; and Terminated is entered from Closing, or by a failed
`Accept`, or by `flag.Parse` ending the process, or by a missing flag at
`validateOptions`, or by a failed `net.Listen`, or by the watcher handling an
interrupt while the listener is still nil, or by an interrupt arriving before
`signal.Notify` has registered the channel (the process is then
Uninitialized and is killed), or by a failed glob in a connection handler
while Listening.  The events followed are the program's own exits and the
interrupt signal. -/
theorem lifecycle_transitions (cfg : Config) (es : List Event) (e : Event) (p' : Proc)
    (hs : procStep cfg e (procRun cfg es Proc.boot) = some p') :
    (phase p' = .closing →
      phase (procRun cfg es Proc.boot) = .listening ∨
      phase (procRun cfg es Proc.boot) = .closing) ∧
    (p'.listener = .closed → (procRun cfg es Proc.boot).listener ≠ .closed →
      e = .watcher ∧ (procRun cfg es Proc.boot).watcher = .check ∧
      (procRun cfg es Proc.boot).mutex = some .watcher ∧
      (procRun cfg es Proc.boot).listener = .listening) ∧
    (phase p' = .listening →
      phase (procRun cfg es Proc.boot) = .uninitialized ∨
      phase (procRun cfg es Proc.boot) = .listening) ∧
    (phase p' = .terminated →
      phase (procRun cfg es Proc.boot) = .closing ∨
      (e = .acceptError ∧ (procRun cfg es Proc.boot).main = .accept) ∨
      (e = .main ∧ (procRun cfg es Proc.boot).main = .parse ∧ cfg.parseExit ≠ none) ∨
      (e = .main ∧ (procRun cfg es Proc.boot).main = .validate ∧
        (cfg.socketName = "" ∨ cfg.filePattern = "")) ∨
      (e = .main ∧ (procRun cfg es Proc.boot).main = .listen ∧ cfg.listenOk = false) ∨
      (e = .watcher ∧ (procRun cfg es Proc.boot).watcher = .fatal ∧
        (procRun cfg es Proc.boot).listener = .nil) ∨
      (e = .interrupt ∧ (procRun cfg es Proc.boot).watcher = .absent ∧
        phase (procRun cfg es Proc.boot) = .uninitialized) ∨
      (e = .handlerGlob ∧ cfg.globOk = false ∧
        phase (procRun cfg es Proc.boot) = .listening)) := by
  have hI := ProcInv.proc_run cfg es
  generalize procRun cfg es Proc.boot = p at hs hI
  obtain ⟨h1, h2, h3, h4, h5, h6, h7⟩ := hI
  rcases p with ⟨m, w, mu, l, sg, hd, ex, out⟩
  cases ex with
  | some _ => simp [procStep] at hs
  | none =>
    cases e with
    | main =>
      cases m <;> simp only [procStep, mainStep] at hs
      · split at hs
        · rename_i code hc
          cases hs
          cases l <;> simp_all [phase]
        · cases hs; cases l <;> simp_all [phase]
      · have hv := (validateOptions_exits_iff cfg).2.1
        split at hs
        · rename_i code hc
          cases hs
          have : cfg.socketName = "" ∨ cfg.filePattern = "" := by
            by_contra hn
            rw [hv.mpr hn] at hc
            simp at hc
          cases l <;> simp_all [phase]
        · cases hs; cases l <;> simp_all [phase]
      · cases hs; cases l <;> simp_all [phase]
      · split at hs
        · cases hs; cases l <;> simp_all [phase]
        · simp at hs
      · split at hs <;> (cases hs; cases l <;> simp_all [phase])
      · cases hs; cases l <;> simp_all [phase]
      · split at hs <;> (cases hs; first | (cases l <;> simp_all [phase]) | simp_all [phase])
    | acceptError =>
      cases m <;> simp only [procStep] at hs <;> first | (simp at hs; done) | skip
      cases hs; cases l <;> simp_all [phase]
    | watcher =>
      cases w <;> simp only [procStep, catchSigintStep] at hs
      · simp at hs
      · split at hs
        · cases hs; cases l <;> simp_all [phase]
        · simp at hs
      · split at hs
        · cases hs; cases l <;> simp_all [phase]
        · simp at hs
      · split at hs <;> (cases hs; first | (cases l <;> simp_all [phase]) | simp_all [phase])
      · cases hs; cases l <;> simp_all [phase]
    | interrupt =>
      cases w <;> simp only [procStep] at hs <;> (cases hs; cases l <;> simp_all [phase])
    | handlerGlob =>
      simp only [procStep] at hs
      split at hs
      · cases hs; cases l <;> simp_all [phase]
      · simp at hs

theorem lifecycle_transitions_witness :
    procStep cfgGood .watcher (procRun cfgGood beforeClose Proc.boot)
      = some (procRun cfgGood (beforeClose ++ [.watcher]) Proc.boot) ∧
    phase (procRun cfgGood (beforeClose ++ [.watcher]) Proc.boot) = .closing ∧
    (phase (procRun cfgGood beforeClose Proc.boot) = .listening ∨
      phase (procRun cfgGood beforeClose Proc.boot) = .closing) :=
  ⟨by decide, by decide,
    (lifecycle_transitions cfgGood beforeClose .watcher
      (procRun cfgGood (beforeClose ++ [.watcher]) Proc.boot) (by decide)).1 (by decide)⟩

end ConcatSocket
